import Mathlib

/-!
# TodoApp (`src/js/script.js`): a shallow embedding and its verified properties

The class `TodoApp` keeps a list of tasks, a filter selector, a search query,
an editing target and a persisted snapshot in `document.cookie`.  Methods are
embedded as pure functions on the record `App`.  JavaScript strings are lists of
characters.  The built-ins the methods call (`toLowerCase`, `JSON.stringify`,
`JSON.parse`, `encodeURIComponent`, `decodeURIComponent`) are the fields of a
`Host`; clock readings and the answer of `confirm` are arguments.  Numbers that
take part in floating-point arithmetic are modelled as IEEE-754 binary64 values.
-/

namespace TodoApp

/-- JavaScript string values. -/
abbrev Str := List Char

/-- The task object built by `addTodo` (script.js:59-67). -/
structure Todo where
  id : Int
  text : Str
  priority : Str
  category : Str
  dueDate : Str
  completed : Bool
  createdAt : Str
deriving DecidableEq, Repr

/-- Exceptions the built-ins used by `loadTodos` can throw. -/
inductive JsError where
  | uriError
  | syntaxError
deriving DecidableEq, Repr

instance [DecidableEq α] : DecidableEq (Except JsError α)
  | .ok a, .ok b =>
    if h : a = b then isTrue (congrArg Except.ok h)
    else isFalse (fun h2 => h (Except.ok.inj h2))
  | .error a, .error b =>
    if h : a = b then isTrue (congrArg Except.error h)
    else isFalse (fun h2 => h (Except.error.inj h2))
  | .ok _, .error _ => isFalse (fun h => Except.noConfusion h)
  | .error _, .ok _ => isFalse (fun h => Except.noConfusion h)

/-- Built-in functions of the JavaScript host that the methods call. -/
structure Host where
  /-- `String.prototype.toLowerCase` -/
  toLowerCase : Str → Str
  /-- `JSON.stringify` on the task array -/
  jsonStringify : List Todo → Str
  /-- `JSON.parse`; throws `SyntaxError` on malformed text -/
  jsonParse : Str → Except JsError (List Todo)
  /-- `encodeURIComponent` -/
  encodeURIComponent : Str → Str
  /-- `decodeURIComponent`; throws `URIError` on a malformed escape -/
  decodeURIComponent : Str → Except JsError Str

/-- One cookie of the jar behind `document.cookie`: its name, its value and the
path it is scoped to. -/
structure Cookie where
  name : Str
  value : Str
  path : Str
deriving DecidableEq, Repr

/-- The fields of a `TodoApp` instance (script.js:3-6) and the cookie jar. -/
structure App where
  todos : List Todo
  currentFilter : Str
  searchQuery : Str
  editingId : Option Int
  jar : List Cookie
deriving DecidableEq, Repr

/-! ## String built-ins with a fixed meaning -/

/-- `String.prototype.startsWith(p)`. -/
def startsWith : Str → Str → Bool
  | _, [] => true
  | [], _ :: _ => false
  | c :: s, d :: p => c == d && startsWith s p

/-- `String.prototype.includes(sub)`: `sub` occurs at some position of the string. -/
def includes : Str → Str → Bool
  | [], sub => startsWith [] sub
  | c :: s, sub => startsWith (c :: s) sub || includes s sub

/-! ## Search and filter (script.js:132-162) -/

/-- `handleSearch` (script.js:132-135): the typed value is stored lower-cased. -/
def handleSearch (h : Host) (value : Str) (s : App) : App :=
  { s with searchQuery := h.toLowerCase value }

/-- `handleFilter` (script.js:125-130): the selector of the clicked button. -/
def handleFilter (selector : Str) (s : App) : App :=
  { s with currentFilter := selector }

/-- `getFilteredTodos` (script.js:137-162). -/
def getFilteredTodos (h : Host) (s : App) : List Todo :=
  let filtered := s.todos
  let filtered :=
    if s.searchQuery ≠ [] then
      filtered.filter (fun todo =>
        includes (h.toLowerCase todo.text) s.searchQuery ||
        includes (h.toLowerCase todo.category) s.searchQuery)
    else filtered
  if s.currentFilter = "pending".toList then
    filtered.filter (fun todo => !todo.completed)
  else if s.currentFilter = "completed".toList then
    filtered.filter (fun todo => todo.completed)
  else if s.currentFilter = "high".toList then
    filtered.filter (fun todo => todo.priority == "high".toList)
  else filtered

/-! ## The cookie jar behind `document.cookie` -/

/-- Pieces of `s` between occurrences of `sep`; `skip` counts the separator
characters still to be passed over after a match. -/
def splitGo (sep : Str) : Str → Nat → List Str
  | [], _ => [[]]
  | _ :: cs, skip + 1 => splitGo sep cs skip
  | c :: cs, 0 =>
    if startsWith (c :: cs) sep then [] :: splitGo sep cs (sep.length - 1)
    else
      match splitGo sep cs 0 with
      | [] => [[c]]
      | piece :: pieces => (c :: piece) :: pieces

/-- `String.prototype.split(sep)` for a non-empty separator. -/
def split (s sep : Str) : List Str := splitGo sep s 0

/-- Length of a string in UTF-8 octets. -/
def byteLength (s : Str) : Nat := (s.map Char.utf8Size).sum

/-- Browsers ignore the assignment of a cookie whose name and value together are
longer than 4096 octets. -/
def cookieLimit : Nat := 4096

/-- The path named by the attributes of an assignment; without a `path` attribute
the cookie is scoped to the directory of the page, taken to be `/`. -/
def attributePath (attributes : Str) : Str :=
  match ((split attributes ";".toList).map (fun a => a.dropWhile (fun c => c == ' '))).find?
      (fun a => startsWith a "path=".toList) with
  | some a => a.drop 5
  | none => "/".toList

/-- Order of the getter: a cookie with a longer path is listed before one with a
shorter path. -/
def listedBefore (a b : Cookie) : Prop := b.path.length ≤ a.path.length

instance : DecidableRel listedBefore := fun a b => Nat.decLe b.path.length a.path.length

/-- The getter of `document.cookie` on the cookies that are visible to the page:
the `name=value` pairs joined by `"; "`, longer paths first and otherwise in the
order of creation. -/
def documentCookie (jar : List Cookie) : Str :=
  "; ".toList.intercalate
    ((jar.insertionSort listedBefore).map (fun c => c.name ++ '=' :: c.value))

/-- The setter of `document.cookie` for an assignment `name=value; attributes`.
An assignment whose name and value exceed the limit is ignored.  Otherwise the pair
before the first `;` replaces the value of the cookie of that name and path, or is
added to the jar.  The `max-age` this program writes is positive, so that the
cookie is kept; expiry is not modelled. -/
def setDocumentCookie (assigned : Str) (jar : List Cookie) : List Cookie :=
  let pair := assigned.takeWhile (fun c => c != ';')
  let attributes := (assigned.dropWhile (fun c => c != ';')).drop 1
  let name := pair.takeWhile (fun c => c != '=')
  let value := (pair.dropWhile (fun c => c != '=')).drop 1
  let path := attributePath attributes
  if cookieLimit < byteLength name + byteLength value then jar
  else if jar.any (fun c => c.name == name && c.path == path) then
    jar.map (fun c => if c.name == name && c.path == path then { c with value := value } else c)
  else jar ++ [{ name := name, value := value, path := path }]

/-- Characters that `encodeURIComponent` leaves unescaped. -/
def uriUnreserved (c : Char) : Bool :=
  c.isAlphanum || "-_.!~*'()".toList.contains c

/-- Well-formed jar: the browser ends a name at the first `=` and a cookie at the
first `;`, so no name holds `=` or `;` and no value holds `;`. -/
def JarOk (jar : List Cookie) : Prop :=
  ∀ c ∈ jar, ';' ∉ c.1 ∧ '=' ∉ c.1 ∧ ';' ∉ c.2

instance (jar : List Cookie) : Decidable (JarOk jar) := by
  unfold JarOk; infer_instance

/-- The built-ins of the host round-trip the serialization of the task list `ts`:
its percent-encoding uses only unreserved characters and `%`, decoding gives the
JSON text back and parsing that text gives `ts` back. -/
def Host.RoundTrips (h : Host) (ts : List Todo) : Prop :=
  (∀ c ∈ h.encodeURIComponent (h.jsonStringify ts), uriUnreserved c = true ∨ c = '%') ∧
  h.decodeURIComponent (h.encodeURIComponent (h.jsonStringify ts)) = .ok (h.jsonStringify ts) ∧
  h.jsonParse (h.jsonStringify ts) = .ok ts

/-- The snapshot of the task list `ts` fits into one cookie: the name `todos` and
the encoded value together stay within the limit. -/
def Host.Fits (h : Host) (ts : List Todo) : Prop :=
  byteLength "todos".toList + byteLength (h.encodeURIComponent (h.jsonStringify ts)) ≤
    cookieLimit

instance (h : Host) (ts : List Todo) : Decidable (h.Fits ts) :=
  Nat.decLe _ _

/-- Every cookie named `todos` of the jar is scoped to the path `/`, the path that
`saveTodos` writes. -/
def RootOnly (jar : List Cookie) : Prop :=
  ∀ c ∈ jar, c.name = "todos".toList → c.path = "/".toList

instance (jar : List Cookie) : Decidable (RootOnly jar) := by
  unfold RootOnly; infer_instance

/-! ## Persistence (script.js:247-263) -/

/-- `saveTodos` (script.js:247-250). -/
def saveTodos (h : Host) (s : App) : App :=
  let data := h.jsonStringify s.todos
  let assigned :=
    "todos=".toList ++ h.encodeURIComponent data ++ "; max-age=31536000; path=/".toList
  { s with jar := setDocumentCookie assigned s.jar }

/-- `loadTodos` (script.js:252-263), reading the string `document.cookie`. -/
def loadTodos (h : Host) (cookie : Str) : Except JsError (List Todo) :=
  let cookies := split cookie "; ".toList
  match cookies.find? (fun c => startsWith c "todos=".toList) with
  | some todoCookie =>
    tryCatch
      (do
        let value := (split todoCookie "=".toList).getD 1 "undefined".toList
        let decoded ← h.decodeURIComponent value
        h.jsonParse decoded)
      (fun _ => pure [])
  | none => pure []

/-- The constructor (script.js:2-8): the state of a freshly started application. -/
def new (h : Host) (jar : List Cookie) : Except JsError App := do
  let todos ← loadTodos h (documentCookie jar)
  pure { todos := todos, currentFilter := "all".toList, searchQuery := [],
         editingId := none, jar := jar }

/-! ## Mutations (script.js:58-123) -/

/-- `addTodo` (script.js:58-73).  `now` is the reading of `Date.now()` and
`createdAt` the value of `new Date().toISOString()`. -/
def addTodo (h : Host) (now : Int) (createdAt : Str)
    (text priority category dueDate : Str) (s : App) : App :=
  let todo : Todo :=
    { id := now, text := text, priority := priority, category := category,
      dueDate := dueDate, completed := false, createdAt := createdAt }
  saveTodos h { s with todos := todo :: s.todos }

/-- In-place mutation of the object returned by `todos.find(p)`: the first element
that satisfies `p` is replaced by its image under `f`. -/
def mutateFound (p : Todo → Bool) (f : Todo → Todo) : List Todo → List Todo
  | [] => []
  | t :: ts => if p t then f t :: ts else t :: mutateFound p f ts

/-- `updateTodo` (script.js:75-85). -/
def updateTodo (h : Host) (id : Int) (text priority category dueDate : Str) (s : App) : App :=
  match s.todos.find? (fun t => t.id == id) with
  | some _ =>
    let assign := fun (todo : Todo) =>
      { todo with text := text, priority := priority, category := category,
                  dueDate := dueDate }
    saveTodos h { s with todos := mutateFound (fun t => t.id == id) assign s.todos }
  | none => s

/-- `deleteTodo` (script.js:87-92). -/
def deleteTodo (h : Host) (id : Int) (s : App) : App :=
  saveTodos h { s with todos := s.todos.filter (fun todo => todo.id != id) }

/-- `toggleComplete` (script.js:94-102). -/
def toggleComplete (h : Host) (id : Int) (s : App) : App :=
  match s.todos.find? (fun t => t.id == id) with
  | some _ =>
    let flip := fun (todo : Todo) => { todo with completed := !todo.completed }
    saveTodos h { s with todos := mutateFound (fun t => t.id == id) flip s.todos }
  | none => s

/-- `editTodo` (script.js:104-114); the form fields it fills are not part of `App`. -/
def editTodo (id : Int) (s : App) : App :=
  match s.todos.find? (fun t => t.id == id) with
  | some _ => { s with editingId := some id }
  | none => s

/-- `clearCompleted` (script.js:116-123); `confirmed` is the answer of `confirm`. -/
def clearCompleted (h : Host) (confirmed : Bool) (s : App) : App :=
  if confirmed then
    saveTodos h { s with todos := s.todos.filter (fun todo => !todo.completed) }
  else s

/-- One `addTodo` call: the two clock readings and the four arguments. -/
structure AddCall where
  now : Int
  createdAt : Str
  text : Str
  priority : Str
  category : Str
  dueDate : Str
deriving DecidableEq, Repr

/-- A sequence of `addTodo` calls, the first call of the list made first. -/
def addTodos (h : Host) (calls : List AddCall) (s : App) : App :=
  calls.foldl
    (fun st c => addTodo h c.now c.createdAt c.text c.priority c.category c.dueDate st) s

/-! ## Statistics (script.js:235-245) -/

/-- Binary64 values are counted in units of `2^-1074`: every finite non-negative
binary64 number is a natural multiple of this unit. -/
def ulpUnit : Nat := 2 ^ 1074

/-- Index of the leading binary digit of `n`, by repeated halving; `fuel` bounds
the number of halvings. -/
def log2Fuel : Nat → Nat → Nat
  | 0, _ => 0
  | fuel + 1, n => if n < 2 then 0 else log2Fuel fuel (n / 2) + 1

/-- The integer part of the binary logarithm (`0` for `0`). -/
def floorLog2 (n : Nat) : Nat := log2Fuel n n

/-- Round-to-nearest, ties-to-even, of the exact quotient `n / den` (in units of
`2^-1074`) to 53 significant bits, with gradual underflow. -/
def roundUnits (n den : Nat) : Nat :=
  let s := (floorLog2 (n / den) + 1) - 53
  let d := den * 2 ^ s
  let q := n / d
  let r := n % d
  (if d < 2 * r ∨ (2 * r = d ∧ q % 2 = 1) then q + 1 else q) * 2 ^ s

/-- The units of a natural number (exact below `2^53`). -/
def unitsOf (n : Nat) : Nat := n * ulpUnit

/-- The rounded quotient of two finite values, in units; divisor not zero. -/
def divUnits (a b : Nat) : Nat := roundUnits (a * ulpUnit) b

/-- The rounded product of two finite values, in units. -/
def mulUnits (a b : Nat) : Nat := roundUnits (a * b) ulpUnit

/-- The integer nearest to a finite value given in units, a tie going up. -/
def roundInteger (a : Nat) : Nat := (2 * a + ulpUnit) / (2 * ulpUnit)

/-- The least rounded magnitude, in units, that is no longer finite: `2^1024`. -/
def overflowUnits : Nat := 2 ^ 1024 * ulpUnit

/-- A JavaScript number that is not negative: a finite binary64 value given in
units of `2^-1074`, `Infinity`, or `NaN`. -/
inductive Num where
  | finite (units : Nat)
  | infinity
  | nan
deriving DecidableEq, Repr

/-- A rounded magnitude as a number: `Infinity` from `2^1024` on. -/
def ofUnits (u : Nat) : Num := if u < overflowUnits then .finite u else .infinity

/-- The number that a length or a count is (exact below `2^53`). -/
def toNumber (n : Nat) : Num := .finite (unitsOf n)

/-- The `/` operator on numbers that are not negative. -/
def numDiv : Num → Num → Num
  | .finite a, .finite b =>
    if b = 0 then (if a = 0 then .nan else .infinity) else ofUnits (divUnits a b)
  | .finite _, .infinity => .finite 0
  | .infinity, .finite _ => .infinity
  | .infinity, .infinity => .nan
  | .nan, _ => .nan
  | _, .nan => .nan

/-- The `*` operator on numbers that are not negative. -/
def numMul : Num → Num → Num
  | .finite a, .finite b => ofUnits (mulUnits a b)
  | .finite a, .infinity => if a = 0 then .nan else .infinity
  | .infinity, .finite b => if b = 0 then .nan else .infinity
  | .infinity, .infinity => .infinity
  | .nan, _ => .nan
  | _, .nan => .nan

/-- `Math.round` on a number that is not negative: the integer nearest to it, a tie
going up; `Infinity` and `NaN` are returned as they are. -/
def mathRound : Num → Num
  | .finite a => .finite (unitsOf (roundInteger a))
  | .infinity => .infinity
  | .nan => .nan

/-- Specification of rounding: the integer nearest to `num / den`, a value half-way
between two integers going up. -/
def roundHalfUp (num den : Nat) : Nat := (2 * num + den) / (2 * den)

/-- What `updateStats` writes into the four counters of the page. -/
structure Stats where
  total : Nat
  pending : Int
  completed : Nat
  rate : Num
deriving DecidableEq, Repr

/-- `updateStats` (script.js:235-245). -/
def updateStats (s : App) : Stats :=
  let total := s.todos.length
  let completed := (s.todos.filter (fun t => t.completed)).length
  let pending : Int := (total : Int) - (completed : Int)
  let rate :=
    if total > 0 then mathRound (numMul (numDiv (toNumber completed) (toNumber total))
      (toNumber 100))
    else toNumber 0
  { total := total, pending := pending, completed := completed, rate := rate }

/-! ## The form (script.js:39-56) -/

/-- White space and line terminators of ECMAScript, the characters that
`String.prototype.trim` removes. -/
def isWhiteSpace (c : Char) : Bool :=
  [0x09, 0x0A, 0x0B, 0x0C, 0x0D, 0x20, 0xA0, 0x1680, 0x2028, 0x2029, 0x202F, 0x205F,
    0x3000, 0xFEFF].contains c.toNat || (0x2000 ≤ c.toNat && c.toNat ≤ 0x200A)

/-- `String.prototype.trim`. -/
def trim (s : Str) : Str :=
  ((s.dropWhile isWhiteSpace).reverse.dropWhile isWhiteSpace).reverse

/-- A text that is empty or consists of white space only. -/
def isBlank (s : Str) : Bool := s.all isWhiteSpace

/-- `handleSubmit` (script.js:39-56).  `input`, `priority`, `category` and
`dueDate` are the values of the form fields; `now` and `createdAt` are the clock
readings used if a task is created.  An editing target that is `null` or `0` is
falsy. -/
def handleSubmit (h : Host) (now : Int) (createdAt : Str)
    (input priority category dueDate : Str) (s : App) : App :=
  let text := trim input
  if text ≠ [] then
    match s.editingId with
    | some id =>
      if id ≠ 0 then
        { updateTodo h id text priority category dueDate s with editingId := none }
      else addTodo h now createdAt text priority category dueDate s
    | none => addTodo h now createdAt text priority category dueDate s
  else s

/-! ## Specification of the view -/

/-- The search predicate of the view: the query is empty, or the lower-cased text
or the lower-cased category contains it. -/
def matchesSearch (h : Host) (query : Str) (t : Todo) : Bool :=
  query.isEmpty || includes (h.toLowerCase t.text) query ||
    includes (h.toLowerCase t.category) query

/-- The predicate of a filter selector: `pending` keeps the tasks that are not
completed, `completed` the completed ones, `high` those of priority `high`, and
any other selector keeps every task. -/
def matchesSelector (selector : Str) (t : Todo) : Bool :=
  if selector = "pending".toList then !t.completed
  else if selector = "completed".toList then t.completed
  else if selector = "high".toList then t.priority == "high".toList
  else true

/-! ## Due dates (script.js:181-233) -/

/-- Milliseconds in a day. -/
def msPerDay : Int := 86400000

/-- Number of days from 1970-01-01 to the day `d` of month `m` of year `y` in the
Gregorian calendar. -/
def daysFromCivil (y m d : Nat) : Int :=
  let y1 : Int := if m ≤ 2 then (y : Int) - 1 else y
  let era : Int := y1 / 400
  let yoe : Int := y1 - era * 400
  let mp : Int := if m ≤ 2 then (m : Int) + 9 else (m : Int) - 3
  let doy : Int := (153 * mp + 2) / 5 + (d : Int) - 1
  let doe : Int := yoe * 365 + yoe / 4 - yoe / 100 + doy
  era * 146097 + doe - 719468

/-- Length of the month `m` of year `y`. -/
def daysInMonth (y m : Nat) : Nat :=
  if m = 2 then (if y % 4 = 0 ∧ (y % 100 ≠ 0 ∨ y % 400 = 0) then 29 else 28)
  else if m = 4 ∨ m = 6 ∨ m = 9 ∨ m = 11 then 30
  else 31

/-- Value of a run of decimal digits, or `none` if a character is not a digit. -/
def digitsValue (s : Str) : Option Nat :=
  s.foldl (fun acc c => acc.bind (fun n =>
    if c.isDigit then some (n * 10 + (c.toNat - 48)) else none)) (some 0)

/-- The time value of `new Date(dateString)` for a date-only string `YYYY-MM-DD`, as
the value of a date input is: ECMAScript reads the date-only form as midnight UTC of
that day.  `none` is the invalid date. -/
def dateParse (dateString : Str) : Option Int :=
  if dateString.length = 10 ∧ dateString.getD 4 ' ' = '-' ∧ dateString.getD 7 ' ' = '-' then
    match digitsValue (dateString.take 4), digitsValue ((dateString.drop 5).take 2),
      digitsValue (dateString.drop 8) with
    | some y, some m, some d =>
      if 1 ≤ m ∧ m ≤ 12 ∧ 1 ≤ d ∧ d ≤ daysInMonth y m then some (daysFromCivil y m d * msPerDay)
      else none
    | _, _, _ => none
  else none

/-- The local calendar day (counted from 1970-01-01) of the instant `t` in a time
zone `offset` minutes east of UTC: what `toDateString` prints. -/
def localDay (t : Int) (offset : Int) : Int := (t + offset * 60000) / msPerDay

/-- The texts that can stand for the due date of a task. -/
inductive DueText where
  | today
  | tomorrow
  /-- the month, day and year printed by `toLocaleDateString` -/
  | localeDate (day : Int)
  /-- the text `Invalid Date` -/
  | invalidDate
  | noDueDate
deriving DecidableEq, Repr

/-- `formatDate` (script.js:220-233) at the clock reading `now` in a time zone
`offset` minutes east of UTC. -/
def formatDate (now : Int) (offset : Int) (dateString : Str) : DueText :=
  match dateParse dateString with
  | none => .invalidDate
  | some date =>
    let today := now
    let tomorrow := today + msPerDay
    if localDay date offset = localDay today offset then .today
    else if localDay date offset = localDay tomorrow offset then .tomorrow
    else .localeDate (localDay date offset)

/-- The due text of `createTodoHTML` (script.js:184). -/
def dueText (now : Int) (offset : Int) (todo : Todo) : DueText :=
  if todo.dueDate ≠ [] then formatDate now offset todo.dueDate else .noDueDate

/-! ## A reference host

Executable versions of the built-ins, used to evaluate the methods on concrete
inputs: percent-encoding of UTF-8 octets, and JSON text in the compact form that
`JSON.stringify` emits for an array of task objects. -/

namespace Ref

/-- Upper-case hexadecimal digit of a number below 16. -/
def hexDigit (n : Nat) : Char := "0123456789ABCDEF".toList.getD n '0'

/-- Value of a hexadecimal digit. -/
def unhex (c : Char) : Option Nat :=
  if '0' ≤ c ∧ c ≤ '9' then some (c.toNat - 48)
  else if 'A' ≤ c ∧ c ≤ 'F' then some (c.toNat - 55)
  else if 'a' ≤ c ∧ c ≤ 'f' then some (c.toNat - 87)
  else none

/-- The UTF-8 octets of a character. -/
def utf8Bytes (c : Char) : List Nat :=
  let n := c.toNat
  if n < 0x80 then [n]
  else if n < 0x800 then [0xC0 + n / 64, 0x80 + n % 64]
  else if n < 0x10000 then [0xE0 + n / 4096, 0x80 + n / 64 % 64, 0x80 + n % 64]
  else [0xF0 + n / 262144, 0x80 + n / 4096 % 64, 0x80 + n / 64 % 64, 0x80 + n % 64]

/-- `encodeURIComponent`: every character outside the unreserved set becomes the
`%XX` escapes of its UTF-8 octets. -/
def encodeURIComponent (s : Str) : Str :=
  s.flatMap (fun c =>
    if uriUnreserved c then [c]
    else (utf8Bytes c).flatMap (fun b => ['%', hexDigit (b / 16), hexDigit (b % 16)]))

/-- First pass of decoding: `%XX` escapes become octets, other characters stay. -/
def unescapeOctets : Str → Except JsError (List (Char ⊕ Nat))
  | [] => .ok []
  | c :: rest =>
    if c = '%' then
      match rest with
      | a :: b :: rest2 =>
        match unhex a, unhex b with
        | some x, some y => (fun l => Sum.inr (16 * x + y) :: l) <$> unescapeOctets rest2
        | _, _ => .error .uriError
      | _ => .error .uriError
    else (fun l => Sum.inl c :: l) <$> unescapeOctets rest

/-- Second pass of decoding: runs of octets are read as UTF-8.  `need` counts the
continuation octets still expected, `acc` is the code point read so far and `low`
the least code point allowed for the length of the sequence. -/
def utf8Decode : List (Char ⊕ Nat) → Nat → Nat → Nat → Except JsError Str
  | [], 0, _, _ => .ok []
  | [], _ + 1, _, _ => .error .uriError
  | Sum.inl c :: rest, 0, _, _ => (fun l => c :: l) <$> utf8Decode rest 0 0 0
  | Sum.inl _ :: _, _ + 1, _, _ => .error .uriError
  | Sum.inr b :: rest, 0, _, _ =>
    if b < 0x80 then (fun l => Char.ofNat b :: l) <$> utf8Decode rest 0 0 0
    else if 0xC0 ≤ b ∧ b < 0xE0 then utf8Decode rest 1 (b - 0xC0) 0x80
    else if 0xE0 ≤ b ∧ b < 0xF0 then utf8Decode rest 2 (b - 0xE0) 0x800
    else if 0xF0 ≤ b ∧ b < 0xF8 then utf8Decode rest 3 (b - 0xF0) 0x10000
    else .error .uriError
  | Sum.inr b :: rest, need + 1, acc, low =>
    if 0x80 ≤ b ∧ b < 0xC0 then
      let acc2 := acc * 64 + (b - 0x80)
      if need = 0 then
        if low ≤ acc2 ∧ Nat.isValidChar acc2 then
          (fun l => Char.ofNat acc2 :: l) <$> utf8Decode rest 0 0 0
        else .error .uriError
      else utf8Decode rest need acc2 low
    else .error .uriError

/-- `decodeURIComponent`. -/
def decodeURIComponent (s : Str) : Except JsError Str :=
  match unescapeOctets s with
  | .ok items => utf8Decode items 0 0 0
  | .error e => .error e

/-- The JSON escape of one character of a string. -/
def jsonEscape (c : Char) : Str :=
  if c = '"' then ['\\', '"']
  else if c = '\\' then ['\\', '\\']
  else if c = '\n' then ['\\', 'n']
  else if c = '\r' then ['\\', 'r']
  else if c = '\t' then ['\\', 't']
  else if c.toNat = 8 then ['\\', 'b']
  else if c.toNat = 12 then ['\\', 'f']
  else if c.toNat < 0x20 then
    ['\\', 'u', '0', '0', (hexDigit (c.toNat / 16)).toLower, (hexDigit (c.toNat % 16)).toLower]
  else [c]

/-- A string as JSON text. -/
def jsonString (s : Str) : Str := '"' :: s.flatMap jsonEscape ++ ['"']

/-- An integer as JSON text. -/
def jsonInt (n : Int) : Str :=
  if n < 0 then '-' :: Nat.toDigits 10 n.natAbs else Nat.toDigits 10 n.natAbs

/-- A task object as JSON text, the keys in the order `addTodo` creates them. -/
def jsonTodo (t : Todo) : Str :=
  "\x7b\"id\":".toList ++ jsonInt t.id ++
  ",\"text\":".toList ++ jsonString t.text ++
  ",\"priority\":".toList ++ jsonString t.priority ++
  ",\"category\":".toList ++ jsonString t.category ++
  ",\"dueDate\":".toList ++ jsonString t.dueDate ++
  ",\"completed\":".toList ++ (if t.completed then "true".toList else "false".toList) ++
  ",\"createdAt\":".toList ++ jsonString t.createdAt ++ "\x7d".toList

/-- `JSON.stringify` on the task array. -/
def jsonStringify (ts : List Todo) : Str :=
  '[' :: ",".toList.intercalate (ts.map jsonTodo) ++ [']']

/-- Consumes the literal `lit` at the start of the text. -/
def expect (lit : Str) (s : Str) : Option Str :=
  if startsWith s lit then some (s.drop lit.length) else none

/-- Reads the body of a JSON string up to its closing quote. -/
def readStringBody : Str → Option (Str × Str)
  | [] => none
  | c :: rest =>
    if c = '"' then some ([], rest)
    else if c = '\\' then
      match rest with
      | e :: rest2 =>
        if e = 'u' then
          match rest2 with
          | a :: b :: x :: y :: rest3 =>
            match unhex a, unhex b, unhex x, unhex y with
            | some a, some b, some x, some y =>
              (fun r => (Char.ofNat (((a * 16 + b) * 16 + x) * 16 + y) :: r.1, r.2)) <$>
                readStringBody rest3
            | _, _, _, _ => none
          | _ => none
        else
          let plain : Option Char :=
            if e = '"' ∨ e = '\\' ∨ e = '/' then some e
            else if e = 'n' then some '\n'
            else if e = 'r' then some '\r'
            else if e = 't' then some '\t'
            else if e = 'b' then some (Char.ofNat 8)
            else if e = 'f' then some (Char.ofNat 12)
            else none
          match plain with
          | some d => (fun r => (d :: r.1, r.2)) <$> readStringBody rest2
          | none => none
      | [] => none
    else if c.toNat < 0x20 then none
    else (fun r => (c :: r.1, r.2)) <$> readStringBody rest

/-- Reads a JSON string. -/
def readString (s : Str) : Option (Str × Str) :=
  match s with
  | c :: rest => if c = '"' then readStringBody rest else none
  | [] => none

/-- Reads a run of decimal digits into the accumulator `acc`. -/
def readDigits : Str → Nat → Nat × Str
  | [], acc => (acc, [])
  | c :: rest, acc =>
    if c.isDigit then readDigits rest (acc * 10 + (c.toNat - 48)) else (acc, c :: rest)

/-- Reads a JSON integer. -/
def readInt (s : Str) : Option (Int × Str) :=
  match s with
  | [] => none
  | c :: rest =>
    if c = '-' then
      match rest with
      | d :: _ => if d.isDigit then
          some (-((readDigits rest 0).1 : Int), (readDigits rest 0).2) else none
      | [] => none
    else if c.isDigit then some (((readDigits s 0).1 : Int), (readDigits s 0).2)
    else none

/-- Reads `true` or `false`. -/
def readBool (s : Str) : Option (Bool × Str) :=
  match expect "true".toList s with
  | some rest => some (true, rest)
  | none => (fun rest => (false, rest)) <$> expect "false".toList s

/-- Reads the literal `key` and then a JSON string. -/
def readKeyString (key : Str) (s : Str) : Option (Str × Str) :=
  (expect key s).bind readString

/-- Reads one task object. -/
def readTodo (s : Str) : Option (Todo × Str) :=
  (expect "\x7b\"id\":".toList s).bind fun s =>
  (readInt s).bind fun id =>
  (readKeyString ",\"text\":".toList id.2).bind fun text =>
  (readKeyString ",\"priority\":".toList text.2).bind fun priority =>
  (readKeyString ",\"category\":".toList priority.2).bind fun category =>
  (readKeyString ",\"dueDate\":".toList category.2).bind fun dueDate =>
  (expect ",\"completed\":".toList dueDate.2).bind fun s =>
  (readBool s).bind fun completed =>
  (readKeyString ",\"createdAt\":".toList completed.2).bind fun createdAt =>
  (expect "\x7d".toList createdAt.2).bind fun rest =>
  some ({ id := id.1, text := text.1, priority := priority.1, category := category.1,
          dueDate := dueDate.1, completed := completed.1, createdAt := createdAt.1 }, rest)

/-- Reads task objects separated by commas up to the closing bracket. -/
def readTodos : Nat → Str → Option (List Todo)
  | 0, _ => none
  | fuel + 1, s =>
    match readTodo s with
    | some (t, c :: rest) =>
      if c = ',' then (fun ts => t :: ts) <$> readTodos fuel rest
      else if c = ']' ∧ rest = [] then some [t]
      else none
    | _ => none

/-- `JSON.parse` on the compact text of a task array; any other text is reported
as a `SyntaxError`. -/
def jsonParse (s : Str) : Except JsError (List Todo) :=
  if s = "[]".toList then .ok []
  else
    match s with
    | c :: rest =>
      if c = '[' then
        match readTodos rest.length rest with
        | some ts => .ok ts
        | none => .error .syntaxError
      else .error .syntaxError
    | [] => .error .syntaxError

/-- The reference host; `toLowerCase` lowers the letters `A`-`Z`. -/
def host : Host where
  toLowerCase := fun s => s.map Char.toLower
  jsonStringify := jsonStringify
  jsonParse := jsonParse
  encodeURIComponent := encodeURIComponent
  decodeURIComponent := decodeURIComponent

end Ref

/-! ## Sample data -/

/-- A pending task. -/
def milk : Todo :=
  { id := 1700000000001, text := "Buy milk".toList, priority := "medium".toList,
    category := "errand".toList, dueDate := [], completed := false,
    createdAt := "2023-11-14T22:13:20.001Z".toList }

/-- A second pending task, created earlier. -/
def dog : Todo :=
  { id := 1700000000000, text := "Walk dog".toList, priority := "high".toList,
    category := "home".toList, dueDate := "2023-11-15".toList, completed := false,
    createdAt := "2023-11-14T22:13:20.000Z".toList }

/-- A store without tasks, as the constructor leaves it when no cookie is set. -/
def emptyApp : App :=
  { todos := [], currentFilter := "all".toList, searchQuery := [], editingId := none,
    jar := [] }

/-- A store holding the two sample tasks, in a browser that already keeps a
cookie of another script and an older snapshot. -/
def demo : App :=
  { emptyApp with
    todos := [milk, dog]
    jar := [{ name := "theme".toList, value := "dark".toList, path := "/".toList },
            { name := "todos".toList, value := "%5B%5D".toList, path := "/".toList }] }

/-- A store of eighteen tasks in a browser without cookies. -/
def crowded : App := { emptyApp with todos := List.replicate 18 milk }

/-- A store of seventeen tasks whose cookie holds these seventeen tasks. -/
def seventeen : App := saveTodos Ref.host { emptyApp with todos := List.replicate 17 milk }

/-- The sample store on a page under `/app`, where an empty snapshot was once
written for that path. -/
def shadowed : App :=
  { emptyApp with
    todos := [milk, dog]
    jar := [{ name := "todos".toList, value := "%5B%5D".toList, path := "/app".toList }] }

/-- A store of forty tasks of which twenty-three are completed: the exact
percentage, 57.5, lies half-way between two integers. -/
def halfway : App :=
  { emptyApp with
    todos := List.replicate 23 { milk with completed := true } ++ List.replicate 17 milk }

/-- A store of three tasks of which one is completed. -/
def third : App :=
  { emptyApp with todos := [{ milk with completed := true }, dog, dog] }

/-- The call that creates the task `milk`. -/
def milkCall : AddCall :=
  { now := 1700000000001, createdAt := "2023-11-14T22:13:20.001Z".toList,
    text := "Buy milk".toList, priority := "medium".toList, category := "errand".toList,
    dueDate := [] }

/-- A call made at the same clock reading as `milkCall`. -/
def eggsCall : AddCall :=
  { milkCall with text := "Buy eggs".toList }

/-- A call made one millisecond before `milkCall`. -/
def dogCall : AddCall :=
  { now := 1700000000000, createdAt := "2023-11-14T22:13:20.000Z".toList,
    text := "Walk dog".toList, priority := "high".toList, category := "home".toList,
    dueDate := "2023-11-15".toList }

/-! ## Facts about the string built-ins -/

theorem startsWith_iff (s p : Str) : startsWith s p = true ↔ p <+: s := by
  induction p generalizing s with
  | nil => simp [startsWith]
  | cons d p ih =>
    cases s with
    | nil => simp [startsWith]
    | cons c s =>
      simp only [startsWith, Bool.and_eq_true, beq_iff_eq, ih, List.cons_prefix_cons]
      constructor
      · rintro ⟨rfl, hp⟩; exact ⟨rfl, hp⟩
      · rintro ⟨rfl, hp⟩; exact ⟨rfl, hp⟩

theorem includes_iff (s sub : Str) : includes s sub = true ↔ sub <:+: s := by
  induction s with
  | nil =>
    simp only [includes, startsWith_iff, List.prefix_nil, List.infix_nil]
  | cons c s ih =>
    simp only [includes, Bool.or_eq_true, startsWith_iff, ih, List.infix_cons_iff]

theorem getFilteredTodos_all (h : Host) (s : App) (hq : s.searchQuery = [])
    (hf : s.currentFilter = "all".toList) : getFilteredTodos h s = s.todos := by
  have e1 : "all".toList ≠ "pending".toList := by decide
  have e2 : "all".toList ≠ "completed".toList := by decide
  have e3 : "all".toList ≠ "high".toList := by decide
  simp only [getFilteredTodos, hq, hf, ne_eq, not_true_eq_false, if_false, e1, e2, e3]

/-! ## Facts about the cookie jar -/

theorem splitGo_ne_nil (sep s : Str) (k : Nat) : splitGo sep s k ≠ [] := by
  induction s generalizing k with
  | nil => simp [splitGo]
  | cons c cs ih =>
    cases k with
    | succ k => simpa [splitGo] using ih k
    | zero =>
      by_cases hs : startsWith (c :: cs) sep = true
      · simp [splitGo, hs]
      · cases hrec : splitGo sep cs 0 with
        | nil => simp [splitGo, hs, hrec]
        | cons a l => simp [splitGo, hs, hrec]

/-- A stretch free of the first separator character joins the first piece. -/
theorem splitGo_append (d : Char) (sep p r : Str) (hp : d ∉ p) :
    splitGo (d :: sep) (p ++ r) 0 =
      (p ++ (splitGo (d :: sep) r 0).headD []) :: (splitGo (d :: sep) r 0).tail := by
  induction p with
  | nil =>
    cases hrec : splitGo (d :: sep) r 0 with
    | nil => exact absurd hrec (splitGo_ne_nil _ _ _)
    | cons a l => simp [hrec]
  | cons c p ih =>
    have hc : c ≠ d := fun hcd => hp (by simp [hcd])
    have hp2 : d ∉ p := fun hm => hp (List.mem_cons_of_mem _ hm)
    have hs : startsWith (c :: (p ++ r)) (d :: sep) = false := by
      simp [startsWith, hc]
    rw [List.cons_append, splitGo, hs]
    simp only [Bool.false_eq_true, if_false]
    rw [ih hp2]
    simp

theorem split_of_not_mem (d : Char) (sep p : Str) (hp : d ∉ p) : split p (d :: sep) = [p] := by
  have hgo := splitGo_append d sep p [] hp
  simpa [split, splitGo] using hgo

theorem intercalate_cons_cons (sep p q : Str) (rest : List Str) :
    sep.intercalate (p :: q :: rest) = p ++ (sep ++ sep.intercalate (q :: rest)) := by
  simp [List.intercalate, List.intersperse]

/-- Splitting the joined cookie string gives the cookie pairs back. -/
theorem split_intercalate (pieces : List Str) (hne : pieces ≠ [])
    (hsemi : ∀ p ∈ pieces, ';' ∉ p) :
    split ([';', ' '].intercalate pieces) [';', ' '] = pieces := by
  induction pieces with
  | nil => exact absurd rfl hne
  | cons p rest ih =>
    have hp : ';' ∉ p := hsemi p (List.mem_cons_self _ _)
    cases rest with
    | nil =>
      have hone : [';', ' '].intercalate [p] = p := by simp [List.intercalate]
      rw [hone]
      exact split_of_not_mem ';' [' '] p hp
    | cons q rest =>
      have ih2 : splitGo [';', ' '] ([';', ' '].intercalate (q :: rest)) 0 = q :: rest :=
        ih (by simp) (fun x hx => hsemi x (List.mem_cons_of_mem _ hx))
      have hgo := splitGo_append ';' [' '] p
        ([';', ' '] ++ [';', ' '].intercalate (q :: rest)) hp
      have hnext : splitGo [';', ' '] ([';', ' '] ++ [';', ' '].intercalate (q :: rest)) 0 =
          [] :: splitGo [';', ' '] ([';', ' '].intercalate (q :: rest)) 0 := by
        simp [splitGo, startsWith]
      rw [hnext, ih2] at hgo
      rw [intercalate_cons_cons, split, hgo]
      simp

theorem takeWhile_stop (p : Char → Bool) (a b : Str) (x : Char)
    (ha : ∀ c ∈ a, p c = true) (hx : p x = false) :
    (a ++ x :: b).takeWhile p = a ∧ (a ++ x :: b).dropWhile p = x :: b := by
  induction a with
  | nil => simp [List.takeWhile, List.dropWhile, hx]
  | cons c a ih =>
    have hc : p c = true := ha c (List.mem_cons_self _ _)
    have ih2 := ih (fun y hy => ha y (List.mem_cons_of_mem _ hy))
    simp [List.takeWhile, List.dropWhile, hc, ih2.1, ih2.2]

/-- A cookie pair starts with `todos=` exactly when the cookie is named `todos`. -/
theorem startsWith_todos (c : Cookie) (hname : '=' ∉ c.1) :
    startsWith (c.1 ++ '=' :: c.2) "todos=".toList = true ↔ c.1 = "todos".toList := by
  rw [startsWith_iff]
  constructor
  · rintro ⟨r, hr⟩
    have hl := (takeWhile_stop (fun x => x != '=') "todos".toList r '='
      (by decide) (by decide)).1
    have hrgt := (takeWhile_stop (fun x => x != '=') c.1 c.2 '='
      (fun y hy => by
        have : y ≠ '=' := fun hyeq => hname (hyeq ▸ hy)
        simpa using this) (by decide)).1
    have heq : "todos=".toList ++ r = "todos".toList ++ '=' :: r := rfl
    rw [← hrgt, ← hr, heq, hl]
  · intro hc
    rw [hc]
    exact ⟨c.2, rfl⟩

/-- The cookie that `saveTodos` assigns, when it fits, is stored under the name
`todos` and the path `/`. -/
theorem setDocumentCookie_todos (v : Str) (jar : List Cookie)
    (hv : ∀ c ∈ v, c ≠ ';' ∧ c ≠ '=')
    (hfit : byteLength "todos".toList + byteLength v ≤ cookieLimit) :
    setDocumentCookie ("todos=".toList ++ v ++ "; max-age=31536000; path=/".toList) jar =
      if jar.any (fun c => c.name == "todos".toList && c.path == "/".toList) then
        jar.map (fun c => if c.name == "todos".toList && c.path == "/".toList
          then { c with value := v } else c)
      else jar ++ [{ name := "todos".toList, value := v, path := "/".toList }] := by
  have hshape : "todos=".toList ++ v ++ "; max-age=31536000; path=/".toList =
      ("todos=".toList ++ v) ++ ';' :: " max-age=31536000; path=/".toList := by
    simp
  have hpair := takeWhile_stop (fun x => x != ';') ("todos=".toList ++ v)
    " max-age=31536000; path=/".toList ';'
    (by
      have hlit : ∀ c ∈ "todos=".toList, (c != ';') = true := by decide
      intro c hc
      rcases List.mem_append.mp hc with hc | hc
      · exact hlit c hc
      · simpa using (hv c hc).1)
    (by decide)
  have hshape2 : "todos=".toList ++ v = "todos".toList ++ '=' :: v := rfl
  have hname := takeWhile_stop (fun x => x != '=') "todos".toList v '=' (by decide) (by decide)
  have hpath : attributePath " max-age=31536000; path=/".toList = "/".toList := by decide
  have hsize : ¬ (cookieLimit < byteLength "todos".toList + byteLength v) := Nat.not_lt.mpr hfit
  simp only [setDocumentCookie]
  rw [hshape, hpair.1, hpair.2, hshape2, hname.1, hname.2]
  simp only [List.drop_one, List.tail_cons, hpath, hsize, if_false]

theorem jarOk_setDocumentCookie (v : Str) (jar : List Cookie) (hjar : JarOk jar)
    (hv : ∀ c ∈ v, c ≠ ';' ∧ c ≠ '=')
    (hfit : byteLength "todos".toList + byteLength v ≤ cookieLimit) :
    JarOk (setDocumentCookie
      ("todos=".toList ++ v ++ "; max-age=31536000; path=/".toList) jar) := by
  have hsemi : ';' ∉ v := fun hm => (hv _ hm).1 rfl
  rw [setDocumentCookie_todos v jar hv hfit]
  intro c hc
  split at hc
  · obtain ⟨c0, hc0, rfl⟩ := List.mem_map.mp hc
    have h0 := hjar c0 hc0
    by_cases hn : (c0.name == "todos".toList && c0.path == "/".toList) = true
    · rw [if_pos hn]; exact ⟨h0.1, h0.2.1, hsemi⟩
    · rw [if_neg hn]; exact h0
  · rcases List.mem_append.mp hc with hc | hc
    · exact hjar c hc
    · rw [List.mem_singleton.mp hc]
      have h1 : ';' ∉ "todos".toList := by decide
      have h2 : '=' ∉ "todos".toList := by decide
      exact ⟨h1, h2, hsemi⟩

/-- After the assignment every cookie named `todos` holds the assigned value, when
the jar held no such cookie of another path, and there is one. -/
theorem setDocumentCookie_value (v : Str) (jar : List Cookie)
    (hv : ∀ c ∈ v, c ≠ ';' ∧ c ≠ '=')
    (hfit : byteLength "todos".toList + byteLength v ≤ cookieLimit)
    (hroot : RootOnly jar) :
    (∀ c ∈ setDocumentCookie
        ("todos=".toList ++ v ++ "; max-age=31536000; path=/".toList) jar,
      c.1 = "todos".toList → c.2 = v) ∧
    (∃ c ∈ setDocumentCookie
        ("todos=".toList ++ v ++ "; max-age=31536000; path=/".toList) jar,
      c.1 = "todos".toList) := by
  rw [setDocumentCookie_todos v jar hv hfit]
  by_cases hany : jar.any (fun c => c.name == "todos".toList && c.path == "/".toList) = true
  · rw [if_pos hany]
    constructor
    · intro c hc hname
      obtain ⟨c0, hc0, rfl⟩ := List.mem_map.mp hc
      by_cases hn : (c0.name == "todos".toList && c0.path == "/".toList) = true
      · rw [if_pos hn]
      · rw [if_neg hn] at hname
        have hp := hroot c0 hc0 hname
        exact absurd (by simp [hname, hp]) hn
    · obtain ⟨c0, hc0, hn⟩ := List.any_eq_true.mp hany
      refine ⟨_, List.mem_map.mpr ⟨c0, hc0, rfl⟩, ?_⟩
      rw [if_pos hn]
      simp only [Bool.and_eq_true, beq_iff_eq] at hn
      exact hn.1
  · rw [if_neg hany]
    constructor
    · intro c hc hname
      rcases List.mem_append.mp hc with hc | hc
      · have hp := hroot c hc hname
        exact absurd (List.any_eq_true.mpr ⟨c, hc, by simp [hname, hp]⟩) hany
      · rw [List.mem_singleton.mp hc]
    · exact ⟨_, List.mem_append.mpr (Or.inr (List.mem_singleton.mpr rfl)), rfl⟩

/-- In a well-formed jar the search of `loadTodos` finds the first cookie named
`todos`. -/
theorem find_todos_cookie (jar : List Cookie) (v : Str) (hjar : JarOk jar)
    (hval : ∀ c ∈ jar, c.1 = "todos".toList → c.2 = v)
    (hex : ∃ c ∈ jar, c.1 = "todos".toList) :
    (jar.map (fun c => c.1 ++ '=' :: c.2)).find? (fun c => startsWith c "todos=".toList) =
      some ("todos".toList ++ '=' :: v) := by
  induction jar with
  | nil => obtain ⟨c, hc, _⟩ := hex; cases hc
  | cons c jar ih =>
    have hc := hjar c (List.mem_cons_self _ _)
    by_cases hn : c.1 = "todos".toList
    · have hst := (startsWith_todos c hc.2.1).mpr hn
      have hv := hval c (List.mem_cons_self _ _) hn
      simp only [List.map_cons, List.find?_cons, hst]
      rw [hn, hv]
    · have hst : startsWith (c.1 ++ '=' :: c.2) "todos=".toList = false := by
        rw [Bool.eq_false_iff]
        exact fun hs => hn ((startsWith_todos c hc.2.1).mp hs)
      simp only [List.map_cons, List.find?_cons, hst]
      refine ih (fun x hx => hjar x (List.mem_cons_of_mem _ hx))
        (fun x hx => hval x (List.mem_cons_of_mem _ hx)) ?_
      obtain ⟨x, hx, hxn⟩ := hex
      rcases List.mem_cons.mp hx with rfl | hx
      · exact absurd hxn hn
      · exact ⟨x, hx, hxn⟩

theorem find_todos_cookie_none (jar : List Cookie) (hjar : JarOk jar)
    (hno : ∀ c ∈ jar, c.1 ≠ "todos".toList) :
    (jar.map (fun c => c.1 ++ '=' :: c.2)).find? (fun c => startsWith c "todos=".toList) =
      none := by
  rw [List.find?_eq_none]
  intro x hx
  obtain ⟨c, hc, rfl⟩ := List.mem_map.mp hx
  exact fun hs => hno c hc ((startsWith_todos c (hjar c hc).2.1).mp hs)

theorem pieces_no_semicolon (jar : List Cookie) (hjar : JarOk jar) :
    ∀ p ∈ jar.map (fun c => c.1 ++ '=' :: c.2), ';' ∉ p := by
  intro p hp
  obtain ⟨c, hc, rfl⟩ := List.mem_map.mp hp
  have h3 := hjar c hc
  intro hm
  rcases List.mem_append.mp hm with hm | hm
  · exact h3.1 hm
  · rcases List.mem_cons.mp hm with hm | hm
    · exact absurd hm (by decide)
    · exact h3.2.2 hm

theorem split_value (v : Str) (hv : '=' ∉ v) :
    (split ("todos".toList ++ '=' :: v) "=".toList).getD 1 "undefined".toList = v := by
  have hsep : "=".toList = '=' :: [] := rfl
  have h1 := splitGo_append '=' [] "todos".toList ('=' :: v) (by decide)
  have h2 : splitGo ('=' :: []) ('=' :: v) 0 = [] :: splitGo ('=' :: []) v 0 := by
    simp [splitGo, startsWith]
  have h3 : splitGo ('=' :: []) v 0 = [v] := split_of_not_mem '=' [] v hv
  rw [split, hsep, h1, h2, h3]
  simp

/-- The `try`/`catch` of `loadTodos` spelled out by cases. -/
theorem loadTodos_eq (h : Host) (cookie : Str) :
    loadTodos h cookie =
      match (split cookie "; ".toList).find? (fun c => startsWith c "todos=".toList) with
      | some todoCookie =>
        match h.decodeURIComponent
            ((split todoCookie "=".toList).getD 1 "undefined".toList) with
        | .ok decoded =>
          match h.jsonParse decoded with
          | .ok ts => .ok ts
          | .error _ => .ok []
        | .error _ => .ok []
      | none => .ok [] := by
  simp only [loadTodos]
  generalize (split cookie "; ".toList).find? (fun c => startsWith c "todos=".toList) = found
  cases found with
  | none => rfl
  | some todoCookie =>
    simp only []
    generalize h.decodeURIComponent
      ((split todoCookie "=".toList).getD 1 "undefined".toList) = dec
    cases dec with
    | error e => rfl
    | ok decoded =>
      simp only [tryCatch, tryCatchThe, MonadExceptOf.tryCatch, bind, Except.bind]
      generalize h.jsonParse decoded = res
      cases res <;> rfl

theorem mem_listed (jar : List Cookie) (c : Cookie) :
    c ∈ jar.insertionSort listedBefore ↔ c ∈ jar :=
  (List.perm_insertionSort listedBefore jar).mem_iff

theorem jarOk_listed (jar : List Cookie) (hjar : JarOk jar) :
    JarOk (jar.insertionSort listedBefore) :=
  fun c hc => hjar c ((mem_listed jar c).mp hc)

theorem listed_ne_nil (jar : List Cookie) (hne : jar ≠ []) :
    jar.insertionSort listedBefore ≠ [] := by
  obtain ⟨c, hc⟩ := List.exists_mem_of_ne_nil jar hne
  exact List.ne_nil_of_mem ((mem_listed jar c).mpr hc)

theorem documentCookie_split (jar : List Cookie) (hjar : JarOk jar) (hne : jar ≠ []) :
    split (documentCookie jar) "; ".toList =
      (jar.insertionSort listedBefore).map (fun c => c.1 ++ '=' :: c.2) :=
  split_intercalate _ (by simpa using listed_ne_nil jar hne)
    (pieces_no_semicolon _ (jarOk_listed jar hjar))

/-! ## Facts about binary64 rounding -/

theorem log2Fuel_spec (fuel n : Nat) (hn : n ≠ 0) (hf : n ≤ fuel) :
    2 ^ log2Fuel fuel n ≤ n ∧ n < 2 ^ (log2Fuel fuel n + 1) := by
  induction fuel generalizing n with
  | zero => omega
  | succ fuel ih =>
    by_cases h2 : n < 2
    · have h1 : n = 1 := by omega
      subst h1
      simp [log2Fuel]
    · have hhalf : n / 2 ≠ 0 := by omega
      obtain ⟨ih1, ih2⟩ := ih (n / 2) hhalf (by omega)
      simp only [log2Fuel, h2, if_false]
      generalize log2Fuel fuel (n / 2) = k at ih1 ih2
      constructor
      · rw [pow_succ]; omega
      · rw [pow_succ]; omega

theorem floorLog2_spec (n : Nat) (hn : n ≠ 0) :
    2 ^ floorLog2 n ≤ n ∧ n < 2 ^ (floorLog2 n + 1) :=
  log2Fuel_spec n n hn (Nat.le_refl n)

theorem roundUnits_zero (den : Nat) : roundUnits 0 den = 0 := by
  have h0 : floorLog2 0 = 0 := rfl
  simp only [roundUnits, Nat.zero_div, h0, Nat.zero_mod]
  have : ¬ (den * 2 ^ (0 + 1 - 53) < 2 * 0 ∨ (2 * 0 = den * 2 ^ (0 + 1 - 53) ∧ 0 % 2 = 1)) := by
    simp
  rw [if_neg this]
  simp

/-- Relative error of one rounding: at most `2^-53` of the exact value, when the
exact value has at least 53 significant bits in units. -/
theorem roundUnits_err (n den : Nat) (hden : 0 < den) (hq : 2 ^ 52 ≤ n / den) :
    2 ^ 53 * (roundUnits n den * den) ≤ (2 ^ 53 + 1) * n ∧
    (2 ^ 53 - 1) * n ≤ 2 ^ 53 * (roundUnits n den * den) := by
  have hQ0 : n / den ≠ 0 := by
    have : 0 < 2 ^ 52 := by positivity
    omega
  obtain ⟨hlow, hhigh⟩ := floorLog2_spec (n / den) hQ0
  have hL : 52 ≤ floorLog2 (n / den) := by
    have hlt : 2 ^ 52 < 2 ^ (floorLog2 (n / den) + 1) := Nat.lt_of_le_of_lt hq hhigh
    have := (Nat.pow_lt_pow_iff_right (by decide : 1 < 2)).mp hlt
    omega
  obtain ⟨s, hs⟩ : ∃ s, floorLog2 (n / den) = 52 + s := ⟨floorLog2 (n / den) - 52, by omega⟩
  have hpow : 2 ^ 52 * 2 ^ s ≤ n / den := by
    rwa [hs, pow_add] at hlow
  have hs2 : floorLog2 (n / den) + 1 - 53 = s := by omega
  have hd0 : 0 < den * 2 ^ s := by positivity
  have hq52 : 2 ^ 52 ≤ n / (den * 2 ^ s) := by
    rw [← Nat.div_div_eq_div_mul]
    exact (Nat.le_div_iff_mul_le (by positivity)).mpr hpow
  have hdm := Nat.div_add_mod n (den * 2 ^ s)
  have hr := Nat.mod_lt n hd0
  have hdn : den * 2 ^ s * 2 ^ 52 ≤ den * 2 ^ s * (n / (den * 2 ^ s)) :=
    Nat.mul_le_mul_left _ hq52
  simp only [roundUnits, hs2]
  generalize hd : den * 2 ^ s = d at *
  generalize hqq : n / d = q at *
  generalize hrr : n % d = r at *
  split_ifs with hc
  · have e : (q + 1) * 2 ^ s * den = d * q + d := by rw [← hd]; ring
    rw [e]
    have hle : d ≤ 2 * r := by omega
    constructor <;> norm_num at * <;> omega
  · have e : q * 2 ^ s * den = d * q := by rw [← hd]; ring
    rw [e]
    have hle : 2 * r ≤ d := by omega
    constructor <;> norm_num at * <;> omega
theorem ulpUnit_pos : 0 < ulpUnit := by unfold ulpUnit; positivity

theorem overflowUnits_large : 512 * ulpUnit ≤ overflowUnits :=
  Nat.mul_le_mul_right ulpUnit
    (Nat.pow_le_pow_right (Nat.succ_pos 1) (by omega : 9 ≤ 1024) : 2 ^ 9 ≤ 2 ^ 1024)

theorem ulpUnit_large : 2 ^ 85 ≤ ulpUnit :=
  Nat.pow_le_pow_right (Nat.succ_pos 1) (by omega : 85 ≤ 1074)

theorem roundInteger_bounds (a : Nat) :
    2 * ulpUnit * roundInteger a ≤ 2 * a + ulpUnit ∧
    2 * a + ulpUnit < 2 * ulpUnit * roundInteger a + 2 * ulpUnit := by
  have hU := ulpUnit_pos
  have h2 : 0 < 2 * ulpUnit := by omega
  unfold roundInteger
  constructor
  · exact Nat.mul_div_le _ _
  · have := Nat.lt_mul_div_succ (2 * a + ulpUnit) h2
    rw [Nat.mul_add, Nat.mul_one] at this
    exact this

/-- The linear arithmetic behind `rate_near`: two relative errors of `2^-53` on a
value of at most `100` stay below half a unit divided by `2^32`. -/
theorem rate_arith (A B C T W U : Nat) (hU : 0 < U)
    (f1a : 2 ^ 53 * A ≤ (2 ^ 53 + 1) * C) (f1b : (2 ^ 53 - 1) * C ≤ 2 ^ 53 * A)
    (g2a : 2 ^ 53 * B ≤ (2 ^ 53 + 1) * (100 * A))
    (g2b : (2 ^ 53 - 1) * (100 * A) ≤ 2 ^ 53 * B)
    (gR1 : 2 * W ≤ 2 * B + T) (gR2 : 2 * B + T < 2 * W + 2 * T)
    (hCT : C ≤ 2 ^ 32 * U) :
    ¬ (2 * W + T + U ≤ 200 * C) ∧ ¬ (200 * C + T + U ≤ 2 * W) := by
  norm_num at f1a f1b g2a g2b hCT
  constructor <;> intro hneg <;> omega

/-- The percentage shown for `c` completed tasks out of `t`, `0 < t < 2^32`, is an
integer nearest to `100 c / t`. -/
theorem rate_near (c t : Nat) (hct : c ≤ t) (ht0 : 0 < t) (ht : t < 2 ^ 32) :
    (200 * c ≤
        2 * t * roundInteger (mulUnits (divUnits (unitsOf c) (unitsOf t)) (unitsOf 100)) + t ∧
      2 * t * roundInteger (mulUnits (divUnits (unitsOf c) (unitsOf t)) (unitsOf 100)) ≤
        200 * c + t) ∧
    divUnits (unitsOf c) (unitsOf t) < overflowUnits ∧
    mulUnits (divUnits (unitsOf c) (unitsOf t)) (unitsOf 100) < overflowUnits := by
  have hU := ulpUnit_pos
  have hUl := ulpUnit_large
  have hov := overflowUnits_large
  rcases Nat.eq_zero_or_pos c with hc0 | hc0
  · subst hc0
    have h1 : divUnits (unitsOf 0) (unitsOf t) = 0 := by
      simp only [unitsOf, divUnits, Nat.zero_mul, roundUnits_zero]
    have h2 : mulUnits 0 (unitsOf 100) = 0 := by
      simp only [mulUnits, Nat.zero_mul, roundUnits_zero]
    have h3 : roundInteger 0 = 0 := by
      simp only [roundInteger, Nat.mul_zero, Nat.zero_add]
      exact Nat.div_eq_of_lt (by omega)
    rw [h1, h2, h3]
    refine ⟨⟨by omega, by omega⟩, by omega, by omega⟩
  · generalize hx1 : divUnits (unitsOf c) (unitsOf t) = x1
    generalize hx2 : mulUnits x1 (unitsOf 100) = x2
    generalize hR : roundInteger x2 = R
    obtain ⟨hR1, hR2⟩ := roundInteger_bounds x2
    rw [hR] at hR1 hR2
    -- first rounding
    have hq1 : 2 ^ 52 ≤ c * ulpUnit * ulpUnit / (t * ulpUnit) := by
      rw [Nat.mul_div_mul_right _ _ hU]
      apply (Nat.le_div_iff_mul_le ht0).mpr
      calc 2 ^ 52 * t ≤ 2 ^ 52 * 2 ^ 32 := Nat.mul_le_mul_left _ ht.le
        _ ≤ 1 * ulpUnit := by norm_num at hUl ⊢; omega
        _ ≤ c * ulpUnit := Nat.mul_le_mul_right _ hc0
    obtain ⟨e1a, e1b⟩ := roundUnits_err (c * ulpUnit * ulpUnit) (t * ulpUnit)
      (Nat.mul_pos ht0 hU) hq1
    have hx1' : roundUnits (c * ulpUnit * ulpUnit) (t * ulpUnit) = x1 := hx1
    rw [hx1'] at e1a e1b
    have f1a : 2 ^ 53 * (t * x1) ≤ (2 ^ 53 + 1) * (c * ulpUnit) := by
      apply Nat.le_of_mul_le_mul_right _ hU
      calc 2 ^ 53 * (t * x1) * ulpUnit = 2 ^ 53 * (x1 * (t * ulpUnit)) := by ring
        _ ≤ (2 ^ 53 + 1) * (c * ulpUnit * ulpUnit) := e1a
        _ = (2 ^ 53 + 1) * (c * ulpUnit) * ulpUnit := by ring
    have f1b : (2 ^ 53 - 1) * (c * ulpUnit) ≤ 2 ^ 53 * (t * x1) := by
      apply Nat.le_of_mul_le_mul_right _ hU
      calc (2 ^ 53 - 1) * (c * ulpUnit) * ulpUnit = (2 ^ 53 - 1) * (c * ulpUnit * ulpUnit) := by
            ring
        _ ≤ 2 ^ 53 * (x1 * (t * ulpUnit)) := e1b
        _ = 2 ^ 53 * (t * x1) * ulpUnit := by ring
    -- the first result is large enough for the second rounding to be normal
    have hcU : ulpUnit ≤ c * ulpUnit := Nat.le_mul_of_pos_left _ hc0
    have hx1big : 2 ^ 52 ≤ x1 := by
      by_contra hlt
      have hlt : x1 < 2 ^ 52 := Nat.lt_of_not_le hlt
      have hprod : t * x1 < 2 ^ 32 * 2 ^ 52 := Nat.mul_lt_mul'' ht hlt
      norm_num at f1b hprod hUl
      omega
    have hq2 : 2 ^ 52 ≤ x1 * (100 * ulpUnit) / ulpUnit := by
      rw [← Nat.mul_assoc, Nat.mul_div_cancel _ hU]
      omega
    obtain ⟨e2a, e2b⟩ := roundUnits_err (x1 * (100 * ulpUnit)) ulpUnit hU hq2
    have hx2' : roundUnits (x1 * (100 * ulpUnit)) ulpUnit = x2 := hx2
    rw [hx2'] at e2a e2b
    have f2a : 2 ^ 53 * x2 ≤ (2 ^ 53 + 1) * (100 * x1) := by
      apply Nat.le_of_mul_le_mul_right _ hU
      calc 2 ^ 53 * x2 * ulpUnit = 2 ^ 53 * (x2 * ulpUnit) := by ring
        _ ≤ (2 ^ 53 + 1) * (x1 * (100 * ulpUnit)) := e2a
        _ = (2 ^ 53 + 1) * (100 * x1) * ulpUnit := by ring
    have f2b : (2 ^ 53 - 1) * (100 * x1) ≤ 2 ^ 53 * x2 := by
      apply Nat.le_of_mul_le_mul_right _ hU
      calc (2 ^ 53 - 1) * (100 * x1) * ulpUnit = (2 ^ 53 - 1) * (x1 * (100 * ulpUnit)) := by ring
        _ ≤ 2 ^ 53 * (x2 * ulpUnit) := e2b
        _ = 2 ^ 53 * x2 * ulpUnit := by ring
    -- scale by t and conclude by linear arithmetic
    have g2a : 2 ^ 53 * (t * x2) ≤ (2 ^ 53 + 1) * (100 * (t * x1)) := by
      calc 2 ^ 53 * (t * x2) = t * (2 ^ 53 * x2) := by ring
        _ ≤ t * ((2 ^ 53 + 1) * (100 * x1)) := Nat.mul_le_mul_left t f2a
        _ = (2 ^ 53 + 1) * (100 * (t * x1)) := by ring
    have g2b : (2 ^ 53 - 1) * (100 * (t * x1)) ≤ 2 ^ 53 * (t * x2) := by
      calc (2 ^ 53 - 1) * (100 * (t * x1)) = t * ((2 ^ 53 - 1) * (100 * x1)) := by ring
        _ ≤ t * (2 ^ 53 * x2) := Nat.mul_le_mul_left t f2b
        _ = 2 ^ 53 * (t * x2) := by ring
    have gR1 : 2 * (t * ulpUnit * R) ≤ 2 * (t * x2) + t * ulpUnit := by
      calc 2 * (t * ulpUnit * R) = t * (2 * ulpUnit * R) := by ring
        _ ≤ t * (2 * x2 + ulpUnit) := Nat.mul_le_mul_left t hR1
        _ = 2 * (t * x2) + t * ulpUnit := by ring
    have gR2 : 2 * (t * x2) + t * ulpUnit < 2 * (t * ulpUnit * R) + 2 * (t * ulpUnit) := by
      calc 2 * (t * x2) + t * ulpUnit = t * (2 * x2 + ulpUnit) := by ring
        _ < t * (2 * ulpUnit * R + 2 * ulpUnit) := Nat.mul_lt_mul_of_pos_left hR2 ht0
        _ = 2 * (t * ulpUnit * R) + 2 * (t * ulpUnit) := by ring
    have hCT : c * ulpUnit ≤ 2 ^ 32 * ulpUnit := Nat.mul_le_mul_right _ (hct.trans ht.le)
    have key := rate_arith (t * x1) (t * x2) (c * ulpUnit) (t * ulpUnit) (t * ulpUnit * R)
      ulpUnit hU f1a f1b g2a g2b gR1 gR2 hCT
    have hx1le : 2 ^ 53 * x1 ≤ (2 ^ 53 + 1) * ulpUnit := by
      apply Nat.le_of_mul_le_mul_left _ ht0
      calc t * (2 ^ 53 * x1) = 2 ^ 53 * (t * x1) := by ring
        _ ≤ (2 ^ 53 + 1) * (c * ulpUnit) := f1a
        _ ≤ (2 ^ 53 + 1) * (t * ulpUnit) :=
          Nat.mul_le_mul_left _ (Nat.mul_le_mul_right _ hct)
        _ = t * ((2 ^ 53 + 1) * ulpUnit) := by ring
    refine ⟨⟨?_, ?_⟩, ?_, ?_⟩
    · by_contra hneg
      have hneg : 2 * t * R + t + 1 ≤ 200 * c := by omega
      apply key.1
      calc 2 * (t * ulpUnit * R) + t * ulpUnit + ulpUnit = (2 * t * R + t + 1) * ulpUnit := by
            ring
        _ ≤ 200 * c * ulpUnit := Nat.mul_le_mul_right ulpUnit hneg
        _ = 200 * (c * ulpUnit) := by ring
    · by_contra hneg
      have hneg : 200 * c + t + 1 ≤ 2 * t * R := by omega
      apply key.2
      calc 200 * (c * ulpUnit) + t * ulpUnit + ulpUnit = (200 * c + t + 1) * ulpUnit := by ring
        _ ≤ 2 * t * R * ulpUnit := Nat.mul_le_mul_right ulpUnit hneg
        _ = 2 * (t * ulpUnit * R) := by ring
    · norm_num at hx1le
      omega
    · norm_num at hx1le f2a
      omega

/-- For a non-empty list shorter than `2^32` the computation of the rate stays
among the finite numbers and ends in an integer. -/
theorem rate_value (c t : Nat) (hct : c ≤ t) (ht0 : 0 < t) (ht : t < 2 ^ 32) :
    mathRound (numMul (numDiv (toNumber c) (toNumber t)) (toNumber 100)) =
      toNumber (roundInteger (mulUnits (divUnits (unitsOf c) (unitsOf t)) (unitsOf 100))) := by
  obtain ⟨_, hf1, hf2⟩ := rate_near c t hct ht0 ht
  have hU := ulpUnit_pos
  have htU : unitsOf t ≠ 0 := Nat.pos_iff_ne_zero.mp (Nat.mul_pos ht0 hU)
  simp only [toNumber, numDiv, htU, if_false, ofUnits, hf1, if_true, numMul, hf2, mathRound]

/-- The nearest integer is the specified rounding, or one less when the exact
value lies half-way between two integers. -/
theorem nearest_roundHalfUp (c t r : Nat) (ht0 : 0 < t)
    (h1 : 200 * c ≤ 2 * t * r + t) (h2 : 2 * t * r ≤ 200 * c + t) :
    ((200 * c + t) % (2 * t) ≠ 0 → r = roundHalfUp (100 * c) t) ∧
    (r = roundHalfUp (100 * c) t ∨ r + 1 = roundHalfUp (100 * c) t) := by
  have h2t : 0 < 2 * t := by omega
  have hnum : 2 * (100 * c) + t = 200 * c + t := by ring
  have hdm := Nat.div_add_mod (200 * c + t) (2 * t)
  have hr := Nat.mod_lt (200 * c + t) h2t
  unfold roundHalfUp
  rw [hnum]
  generalize (200 * c + t) / (2 * t) = H at hdm ⊢
  generalize (200 * c + t) % (2 * t) = m at hdm hr ⊢
  have hle : r ≤ H := by
    by_contra hlt
    have hlt : H + 1 ≤ r := by omega
    have := Nat.mul_le_mul_left (2 * t) hlt
    rw [Nat.mul_add] at this
    omega
  have hge : H ≤ r + 1 := by
    by_contra hlt
    have hlt : r + 2 ≤ H := by omega
    have := Nat.mul_le_mul_left (2 * t) hlt
    rw [Nat.mul_add] at this
    omega
  constructor
  · intro hm
    by_contra hne
    have hH : H = r + 1 := by omega
    rw [hH, Nat.mul_add] at hdm
    omega
  · omega

/-! ## Facts about the mutations -/

@[simp] theorem saveTodos_todos (h : Host) (s : App) : (saveTodos h s).todos = s.todos := rfl

@[simp] theorem saveTodos_currentFilter (h : Host) (s : App) :
    (saveTodos h s).currentFilter = s.currentFilter := rfl

@[simp] theorem saveTodos_searchQuery (h : Host) (s : App) :
    (saveTodos h s).searchQuery = s.searchQuery := rfl

@[simp] theorem saveTodos_editingId (h : Host) (s : App) :
    (saveTodos h s).editingId = s.editingId := rfl

theorem addTodo_todos (h : Host) (now : Int) (createdAt text priority category dueDate : Str)
    (s : App) :
    (addTodo h now createdAt text priority category dueDate s).todos =
      { id := now, text := text, priority := priority, category := category,
        dueDate := dueDate, completed := false, createdAt := createdAt } :: s.todos := rfl

theorem addTodos_ids (h : Host) (calls : List AddCall) (s : App) :
    (addTodos h calls s).todos.map (fun t => t.id) =
      (calls.map (fun c => c.now)).reverse ++ s.todos.map (fun t => t.id) := by
  induction calls generalizing s with
  | nil => simp [addTodos]
  | cons c cs ih =>
    have step : addTodos h (c :: cs) s =
        addTodos h cs (addTodo h c.now c.createdAt c.text c.priority c.category c.dueDate s) :=
      rfl
    rw [step, ih, addTodo_todos]
    simp

theorem mutateFound_length (p : Todo → Bool) (f : Todo → Todo) (ts : List Todo) :
    (mutateFound p f ts).length = ts.length := by
  induction ts with
  | nil => rfl
  | cons t ts ih =>
    by_cases hp : p t = true
    · simp [mutateFound, hp]
    · simp [mutateFound, hp, ih]

/-- With pairwise distinct ids, changing the first task of a given id changes every
task of that id. -/
theorem mutateFound_eq_map (id : Int) (f : Todo → Todo) (ts : List Todo)
    (hnd : (ts.map (fun t => t.id)).Nodup) :
    mutateFound (fun t => t.id == id) f ts = ts.map (fun t => if t.id = id then f t else t) := by
  induction ts with
  | nil => rfl
  | cons t ts ih =>
    rw [List.map_cons, List.nodup_cons] at hnd
    by_cases hp : t.id = id
    · have hrest : ∀ u ∈ ts, u.id ≠ id := by
        intro u hu hid
        exact hnd.1 (List.mem_map.mpr ⟨u, hu, hid.trans hp.symm⟩)
      have hmap : ts.map (fun t => if t.id = id then f t else t) = ts := by
        conv_rhs => rw [← List.map_id ts]
        exact List.map_congr_left (fun u hu => by simp [hrest u hu])
      simp [mutateFound, hp, hmap]
    · simp [mutateFound, hp, ih hnd.2]

theorem find_none_of_absent (id : Int) (ts : List Todo) (habs : ∀ t ∈ ts, t.id ≠ id) :
    ts.find? (fun t => t.id == id) = none := by
  rw [List.find?_eq_none]
  intro t ht
  simpa using habs t ht

theorem find_some_of_present (id : Int) (ts : List Todo) (hpres : ∃ t ∈ ts, t.id = id) :
    ∃ t, ts.find? (fun t => t.id == id) = some t := by
  cases hf : ts.find? (fun t => t.id == id) with
  | some t => exact ⟨t, rfl⟩
  | none =>
    rw [List.find?_eq_none] at hf
    obtain ⟨t, ht, hid⟩ := hpres
    exact absurd (by simpa using hid) (hf t ht)

/-! ## Facts about the view, the form and the persisted snapshot -/

/-- The two stages of `getFilteredTodos` as two filters. -/
theorem getFilteredTodos_eq (h : Host) (s : App) :
    getFilteredTodos h s =
      (s.todos.filter (matchesSearch h s.searchQuery)).filter
        (matchesSelector s.currentFilter) := by
  have hsearch : (if s.searchQuery ≠ [] then
        s.todos.filter (fun todo =>
          includes (h.toLowerCase todo.text) s.searchQuery ||
          includes (h.toLowerCase todo.category) s.searchQuery)
      else s.todos) = s.todos.filter (matchesSearch h s.searchQuery) := by
    by_cases hq : s.searchQuery = []
    · rw [if_neg (not_not.mpr hq)]
      symm
      rw [List.filter_eq_self]
      intro t _
      simp [matchesSearch, hq]
    · rw [if_pos hq]
      refine List.filter_congr (fun t _ => ?_)
      have hne : s.searchQuery.isEmpty = false := by
        cases hs : s.searchQuery with
        | nil => exact absurd hs hq
        | cons c cs => rfl
      simp [matchesSearch, hne]
  simp only [getFilteredTodos]
  rw [hsearch]
  by_cases h1 : s.currentFilter = "pending".toList
  · rw [if_pos h1]
    exact List.filter_congr (fun t _ => by simp [matchesSelector, h1])
  · rw [if_neg h1]
    by_cases h2 : s.currentFilter = "completed".toList
    · rw [if_pos h2]
      exact List.filter_congr (fun t _ => by simp [matchesSelector, h1, h2])
    · rw [if_neg h2]
      by_cases h3 : s.currentFilter = "high".toList
      · rw [if_pos h3]
        exact List.filter_congr (fun t _ => by simp [matchesSelector, h1, h2, h3])
      · rw [if_neg h3]
        symm
        rw [List.filter_eq_self]
        intro t _
        unfold matchesSelector
        rw [if_neg h1, if_neg h2, if_neg h3]

theorem getFilteredTodos_noSearch (h : Host) (s : App) (hq : s.searchQuery = []) :
    getFilteredTodos h s = s.todos.filter (matchesSelector s.currentFilter) := by
  rw [getFilteredTodos_eq, hq]
  congr 1
  rw [List.filter_eq_self]
  intro t _
  simp [matchesSearch]

theorem trim_not_blank (s : Str) (hne : trim s ≠ []) : isBlank (trim s) = false := by
  unfold trim at hne ⊢
  generalize hb : (s.dropWhile isWhiteSpace).reverse.dropWhile isWhiteSpace = b at hne ⊢
  have hbne : b ≠ [] := by
    intro hnil
    exact hne (by rw [hnil]; rfl)
  have hhead := List.head_dropWhile_not isWhiteSpace (s.dropWhile isWhiteSpace).reverse
    (by rw [hb]; exact hbne)
  simp only [hb] at hhead
  rw [isBlank, List.all_eq_false]
  refine ⟨b.head hbne, ?_, by simpa using hhead⟩
  exact List.mem_reverse.mpr (List.head_mem hbne)

theorem mutateFound_mem (p : Todo → Bool) (f : Todo → Todo) (ts : List Todo) (u : Todo)
    (hu : u ∈ mutateFound p f ts) : u ∈ ts ∨ ∃ t ∈ ts, u = f t := by
  induction ts with
  | nil => cases hu
  | cons t ts ih =>
    by_cases hp : p t = true
    · simp only [mutateFound, hp, if_true, List.mem_cons] at hu
      rcases hu with rfl | hu
      · exact Or.inr ⟨t, List.mem_cons_self _ _, rfl⟩
      · exact Or.inl (List.mem_cons_of_mem _ hu)
    · simp only [mutateFound, hp, Bool.false_eq_true, if_false, List.mem_cons] at hu
      rcases hu with rfl | hu
      · exact Or.inl (List.mem_cons_self _ _)
      · rcases ih hu with hm | ⟨t2, ht2, rfl⟩
        · exact Or.inl (List.mem_cons_of_mem _ hm)
        · exact Or.inr ⟨t2, List.mem_cons_of_mem _ ht2, rfl⟩

theorem mutateFound_ids (p : Todo → Bool) (f : Todo → Todo) (ts : List Todo)
    (hf : ∀ t, (f t).id = t.id) :
    (mutateFound p f ts).map (fun t => t.id) = ts.map (fun t => t.id) := by
  induction ts with
  | nil => rfl
  | cons t ts ih =>
    by_cases hp : p t = true
    · simp [mutateFound, hp, hf]
    · simp [mutateFound, hp, ih]

/-- Flipping the completion flag of the first task of an id twice restores the
list, whether or not the ids are distinct. -/
theorem mutateFound_flip_twice (id : Int) (ts : List Todo) :
    mutateFound (fun t => t.id == id) (fun todo => { todo with completed := !todo.completed })
      (mutateFound (fun t => t.id == id)
        (fun todo => { todo with completed := !todo.completed }) ts) = ts := by
  induction ts with
  | nil => rfl
  | cons t ts ih =>
    by_cases hp : (t.id == id) = true
    · simp only [mutateFound, hp, if_true]
      cases t
      simp
    · simp only [mutateFound, hp, Bool.false_eq_true, if_false]
      rw [ih]

theorem find_mutateFound (id : Int) (f : Todo → Todo) (ts : List Todo)
    (hf : ∀ t, (f t).id = t.id) (t : Todo)
    (hfind : ts.find? (fun t => t.id == id) = some t) :
    ∃ u, (mutateFound (fun t => t.id == id) f ts).find? (fun t => t.id == id) = some u := by
  apply find_some_of_present
  have hmem := List.mem_of_find?_eq_some hfind
  have hid : t.id = id := by simpa using List.find?_some hfind
  have hids := mutateFound_ids (fun t => t.id == id) f ts hf
  have : id ∈ (mutateFound (fun t => t.id == id) f ts).map (fun t => t.id) := by
    rw [hids]
    exact List.mem_map.mpr ⟨t, hmem, hid⟩
  obtain ⟨u, hu, huid⟩ := List.mem_map.mp this
  exact ⟨u, hu, huid⟩

theorem length_filter_id (id : Int) (ts : List Todo)
    (hnd : (ts.map (fun t => t.id)).Nodup) (hpres : ∃ t ∈ ts, t.id = id) :
    (ts.filter (fun todo => todo.id != id)).length + 1 = ts.length := by
  induction ts with
  | nil => obtain ⟨t, ht, _⟩ := hpres; cases ht
  | cons t ts ih =>
    rw [List.map_cons, List.nodup_cons] at hnd
    by_cases hp : t.id = id
    · have hrest : ts.filter (fun todo => todo.id != id) = ts := by
        rw [List.filter_eq_self]
        intro u hu
        have : u.id ≠ id := fun hid =>
          hnd.1 (List.mem_map.mpr ⟨u, hu, hid.trans hp.symm⟩)
        simpa using this
      simp [List.filter_cons, hp, hrest]
    · have hpres2 : ∃ u ∈ ts, u.id = id := by
        obtain ⟨u, hu, hid⟩ := hpres
        rcases List.mem_cons.mp hu with rfl | hu
        · exact absurd hid hp
        · exact ⟨u, hu, hid⟩
      have := ih hnd.2 hpres2
      simp [List.filter_cons, hp, this]

/-- Reading back the cookie string after the assignment that `saveTodos` makes for
the list `ts`. -/
theorem loadTodos_after_assignment (h : Host) (jar : List Cookie) (ts : List Todo)
    (hjar : JarOk jar) (hroot : RootOnly jar) (hhost : h.RoundTrips ts) (hfit : h.Fits ts) :
    loadTodos h (documentCookie (setDocumentCookie
      ("todos=".toList ++ h.encodeURIComponent (h.jsonStringify ts) ++
        "; max-age=31536000; path=/".toList) jar)) = .ok ts := by
  obtain ⟨hsafe, huri, hjson⟩ := hhost
  have hv : ∀ c ∈ h.encodeURIComponent (h.jsonStringify ts), c ≠ ';' ∧ c ≠ '=' := by
    intro c hc
    rcases hsafe c hc with hu | hu
    · constructor
      · rintro rfl; exact absurd hu (by decide)
      · rintro rfl; exact absurd hu (by decide)
    · rw [hu]; decide
  have hjar2 := jarOk_setDocumentCookie _ jar hjar hv hfit
  obtain ⟨hval, hex⟩ := setDocumentCookie_value _ jar hv hfit hroot
  have hne : setDocumentCookie
      ("todos=".toList ++ h.encodeURIComponent (h.jsonStringify ts) ++
        "; max-age=31536000; path=/".toList) jar ≠ [] := by
    obtain ⟨c, hc, _⟩ := hex
    exact List.ne_nil_of_mem hc
  have hfind := find_todos_cookie _ _ (jarOk_listed _ hjar2)
    (fun c hc => hval c ((mem_listed _ c).mp hc))
    (by
      obtain ⟨c, hc, hn⟩ := hex
      exact ⟨c, (mem_listed _ c).mpr hc, hn⟩)
  rw [loadTodos_eq, documentCookie_split _ hjar2 hne, hfind]
  simp only []
  rw [split_value _ (fun hm => (hv _ hm).2 rfl), huri]
  simp only []
  rw [hjson]

/-! ## Verified properties -/

/-- C1: with an empty search query, `getFilteredTodos` returns the stored tasks that
satisfy the selector's predicate, in stored order: every task for `all`, the tasks
with `completed = false` for `pending`, those with `completed = true` for
`completed`, and those with `priority = 'high'` for `high`. -/
theorem getFilteredTodos_selector (h : Host) (s : App) (hq : s.searchQuery = []) :
    (s.currentFilter = "all".toList → getFilteredTodos h s = s.todos) ∧
    (s.currentFilter = "pending".toList →
      getFilteredTodos h s = s.todos.filter (fun t => t.completed = false)) ∧
    (s.currentFilter = "completed".toList →
      getFilteredTodos h s = s.todos.filter (fun t => t.completed = true)) ∧
    (s.currentFilter = "high".toList →
      getFilteredTodos h s = s.todos.filter (fun t => t.priority = "high".toList)) := by
  have e1 : "all".toList ≠ "pending".toList := by decide
  have e2 : "all".toList ≠ "completed".toList := by decide
  have e3 : "all".toList ≠ "high".toList := by decide
  have e4 : "completed".toList ≠ "pending".toList := by decide
  have e5 : "high".toList ≠ "pending".toList := by decide
  have e6 : "high".toList ≠ "completed".toList := by decide
  refine ⟨fun hf => ?_, fun hf => ?_, fun hf => ?_, fun hf => ?_⟩
  · simp only [getFilteredTodos, hq, hf, ne_eq, not_true_eq_false, if_false, e1, e2, e3]
  · simp only [getFilteredTodos, hq, hf, ne_eq, not_true_eq_false, if_false, if_true]
    exact List.filter_congr (fun t _ => by cases t.completed <;> rfl)
  · simp only [getFilteredTodos, hq, hf, ne_eq, not_true_eq_false, if_false, if_true, e4]
    exact List.filter_congr (fun t _ => by cases t.completed <;> rfl)
  · simp only [getFilteredTodos, hq, hf, ne_eq, not_true_eq_false, if_false, if_true, e5, e6]
    exact List.filter_congr (fun t _ => by rw [Bool.eq_iff_iff]; simp)

/-- Witness of C1 on the sample store: with filter `all` and no search the view is
the stored list. -/
theorem getFilteredTodos_selector_witness :
    demo.searchQuery = [] ∧ getFilteredTodos Ref.host demo = demo.todos :=
  ⟨rfl, (getFilteredTodos_selector Ref.host demo rfl).1 rfl⟩

/-- C2: after `handleSearch` stores a non-empty query `q`, the view under filter
`all` consists of the tasks whose lower-cased text or lower-cased category contains
the lower-cased `q` as a substring, in stored order; an empty query excludes no
task (the lower-casing of the empty string being empty). -/
theorem getFilteredTodos_search (h : Host) (s : App) (q : Str)
    (hall : s.currentFilter = "all".toList) :
    (q ≠ [] → getFilteredTodos h (handleSearch h q s) =
      s.todos.filter (fun t => decide (h.toLowerCase q <:+: h.toLowerCase t.text ∨
        h.toLowerCase q <:+: h.toLowerCase t.category))) ∧
    (h.toLowerCase [] = [] → getFilteredTodos h (handleSearch h [] s) = s.todos) := by
  have e1 : "all".toList ≠ "pending".toList := by decide
  have e2 : "all".toList ≠ "completed".toList := by decide
  have e3 : "all".toList ≠ "high".toList := by decide
  refine ⟨fun _ => ?_, fun h0 => ?_⟩
  · simp only [getFilteredTodos, handleSearch, hall, e1, e2, e3, if_false]
    by_cases hq : h.toLowerCase q = []
    · simp [hq]
    · rw [if_pos hq]
      refine List.filter_congr (fun t _ => ?_)
      rw [Bool.eq_iff_iff]
      simp [includes_iff]
  · simp [getFilteredTodos, handleSearch, hall, e1, e2, e3, h0]

/-- Witness of C2: searching `milk` in the sample store returns only the milk task. -/
theorem getFilteredTodos_search_witness :
    getFilteredTodos Ref.host (handleSearch Ref.host "milk".toList demo) = [milk] :=
  ((getFilteredTodos_search Ref.host demo "milk".toList rfl).1 (by decide)).trans
    (by decide)

/-- C3 as stated fails: two `addTodo` calls made at the same clock reading, starting
from the empty store, leave two tasks with the same id. -/
theorem addTodos_ids_collide :
    ¬ ((addTodos Ref.host [milkCall, eggsCall] emptyApp).todos.map (fun t => t.id)).Nodup := by
  decide

/-- C3, amended: starting from an empty store, when the readings of `Date.now()` at
the `addTodo` calls are pairwise distinct, the ids of the resulting tasks are
pairwise distinct. -/
theorem addTodos_ids_nodup (h : Host) (calls : List AddCall) (s : App)
    (hempty : s.todos = []) (hclock : (calls.map (fun c => c.now)).Nodup) :
    ((addTodos h calls s).todos.map (fun t => t.id)).Nodup := by
  rw [addTodos_ids, hempty]
  simpa using hclock

/-- Witness of C3, amended: two calls one millisecond apart. -/
theorem addTodos_ids_nodup_witness :
    ((addTodos Ref.host [dogCall, milkCall] emptyApp).todos.map (fun t => t.id)).Nodup :=
  addTodos_ids_nodup Ref.host [dogCall, milkCall] emptyApp rfl (by decide)

/-- C6: the statistics are computed over the whole stored list, whatever the filter
and the search query: `total` is the length of the list, `completed` the number of
tasks with `completed = true`, `pending` the number of the others, and
`pending + completed = total`. -/
theorem updateStats_counts (s : App) (selector query : Str) :
    (updateStats s).total = s.todos.length ∧
    (updateStats s).completed = s.todos.countP (fun t => t.completed) ∧
    (updateStats s).pending + (updateStats s).completed = (updateStats s).total ∧
    (updateStats s).pending = s.todos.countP (fun t => !t.completed) ∧
    updateStats { s with currentFilter := selector, searchQuery := query } = updateStats s := by
  refine ⟨rfl, ?_, ?_, ?_, rfl⟩
  · simp [updateStats, List.countP_eq_length_filter]
  · simp [updateStats]
  · have hsplit := List.length_eq_countP_add_countP (fun t : Todo => t.completed) s.todos
    simp only [updateStats, List.countP_eq_length_filter] at hsplit ⊢
    have hneg : (List.filter (fun t : Todo => !t.completed) s.todos).length =
        (List.filter (fun a : Todo => decide ¬ (a.completed = true)) s.todos).length := by
      congr 1
      exact List.filter_congr (fun t _ => by cases t.completed <;> rfl)
    omega

/-- C8: `addTodo` puts a new task with the given text, priority, category and due
date and `completed = false` in front of the previous list, which is otherwise
unchanged; the length grows by one, and creating A then B in an empty store gives
the view `[B, A]` under filter `all` with an empty search. -/
theorem addTodo_front (h : Host) (now : Int) (createdAt text priority category dueDate : Str)
    (s : App) :
    (∃ t : Todo, (addTodo h now createdAt text priority category dueDate s).todos = t :: s.todos ∧
      t.text = text ∧ t.priority = priority ∧ t.category = category ∧ t.dueDate = dueDate ∧
      t.completed = false) ∧
    (addTodo h now createdAt text priority category dueDate s).todos.length =
      s.todos.length + 1 ∧
    (∀ (a b : AddCall) (e : Option Int) (jar : List Cookie),
      getFilteredTodos h (addTodos h [a, b]
        { todos := [], currentFilter := "all".toList, searchQuery := [],
          editingId := e, jar := jar }) =
        [{ id := b.now, text := b.text, priority := b.priority, category := b.category,
           dueDate := b.dueDate, completed := false, createdAt := b.createdAt },
         { id := a.now, text := a.text, priority := a.priority, category := a.category,
           dueDate := a.dueDate, completed := false, createdAt := a.createdAt }]) := by
  refine ⟨⟨_, addTodo_todos h now createdAt text priority category dueDate s,
    rfl, rfl, rfl, rfl, rfl⟩, ?_, ?_⟩
  · rw [addTodo_todos]; rfl
  · intro a b e jar
    exact getFilteredTodos_all h _ rfl rfl

/-- C9: in a store with pairwise distinct ids that holds a task of the given id,
`updateTodo` gives that task the new text, priority, category and due date and
changes nothing else: every other task, the order and the length of the list, and
the id, the completion flag and the creation time of every task stay as they were. -/
theorem updateTodo_frame (h : Host) (id : Int) (text priority category dueDate : Str) (s : App)
    (hnd : (s.todos.map (fun t => t.id)).Nodup) (hpres : ∃ t ∈ s.todos, t.id = id) :
    (updateTodo h id text priority category dueDate s).todos =
      s.todos.map (fun t => if t.id = id then
        { t with text := text, priority := priority, category := category,
                 dueDate := dueDate } else t) ∧
    (updateTodo h id text priority category dueDate s).todos.length = s.todos.length ∧
    (updateTodo h id text priority category dueDate s).todos.map
        (fun t => (t.id, t.completed, t.createdAt)) =
      s.todos.map (fun t => (t.id, t.completed, t.createdAt)) := by
  obtain ⟨t, hfind⟩ := find_some_of_present id s.todos hpres
  have htodos : (updateTodo h id text priority category dueDate s).todos =
      s.todos.map (fun t => if t.id = id then
        { t with text := text, priority := priority, category := category,
                 dueDate := dueDate } else t) := by
    simp only [updateTodo, hfind, saveTodos_todos]
    exact mutateFound_eq_map id _ s.todos hnd
  refine ⟨htodos, ?_, ?_⟩
  · rw [htodos, List.length_map]
  · rw [htodos, List.map_map]
    refine List.map_congr_left (fun u _ => ?_)
    by_cases hu : u.id = id <;> simp [hu]

/-- Witness of C9: renaming the milk task of the sample store. -/
theorem updateTodo_frame_witness :
    (updateTodo Ref.host 1700000000001 "Buy oat milk".toList "low".toList "shop".toList
        "2023-11-16".toList demo).todos =
      [{ milk with text := "Buy oat milk".toList, priority := "low".toList,
                   category := "shop".toList, dueDate := "2023-11-16".toList }, dog] :=
  ((updateTodo_frame Ref.host 1700000000001 "Buy oat milk".toList "low".toList
    "shop".toList "2023-11-16".toList demo (by decide) ⟨milk, by decide, rfl⟩).1).trans
    (by decide)

/-- C10: for an id that no stored task has, `updateTodo` and `toggleComplete` return
the state they were given: task list, cookie jar, filter, search query and editing
target are all unchanged. -/
theorem update_toggle_absent (h : Host) (id : Int) (text priority category dueDate : Str)
    (s : App) (habs : ∀ t ∈ s.todos, t.id ≠ id) :
    updateTodo h id text priority category dueDate s = s ∧ toggleComplete h id s = s := by
  have hfind := find_none_of_absent id s.todos habs
  constructor
  · simp only [updateTodo, hfind]
  · simp only [toggleComplete, hfind]

/-- Witness of C10: no task of the sample store has the id 7. -/
theorem update_toggle_absent_witness :
    updateTodo Ref.host 7 "x".toList "low".toList "y".toList [] demo = demo ∧
      toggleComplete Ref.host 7 demo = demo :=
  update_toggle_absent Ref.host 7 "x".toList "low".toList "y".toList [] demo (by decide)

/-- C4 as stated fails.  The built-ins round-trip the eighteen tasks of `crowded`,
but their cookie is longer than 4096 octets, the browser ignores the assignment and
`loadTodos` does not return the saved list; and on the page of `shadowed` the older
`todos` cookie of the path `/app` is listed first and is the one that is read. -/
theorem saveTodos_loadTodos_lost :
    Ref.host.RoundTrips crowded.todos ∧
    loadTodos Ref.host (documentCookie (saveTodos Ref.host crowded).jar) ≠
      .ok crowded.todos ∧
    loadTodos Ref.host (documentCookie (saveTodos Ref.host shadowed).jar) ≠
      .ok shadowed.todos := by
  refine ⟨⟨?_, ?_, ?_⟩, ?_, ?_⟩ <;> decide!

/-- C4, amended: when the host's built-ins round-trip the serialization of the task
list, the name `todos` and the encoded list together fit the 4096 octets of a cookie
and the jar holds no `todos` cookie of a path other than `/`, `loadTodos` applied to
the cookie string that `saveTodos` leaves behind returns the saved list, field for
field and in the same order. -/
theorem saveTodos_loadTodos (h : Host) (s : App) (hjar : JarOk s.jar)
    (hroot : RootOnly s.jar) (hhost : h.RoundTrips s.todos) (hfit : h.Fits s.todos) :
    loadTodos h (documentCookie (saveTodos h s).jar) = .ok s.todos := by
  have hsave : (saveTodos h s).jar = setDocumentCookie
      ("todos=".toList ++ h.encodeURIComponent (h.jsonStringify s.todos) ++
        "; max-age=31536000; path=/".toList) s.jar := rfl
  rw [hsave]
  exact loadTodos_after_assignment h s.jar s.todos hjar hroot hhost hfit

set_option maxRecDepth 100000 in
/-- Witness of C4, amended: saving the sample store and reading the cookie string
back. -/
theorem saveTodos_loadTodos_witness :
    loadTodos Ref.host (documentCookie (saveTodos Ref.host demo).jar) = .ok [milk, dog] :=
  saveTodos_loadTodos Ref.host demo (by decide) (by decide)
    ⟨by decide!, by decide!, by decide!⟩ (by decide!)

/-- C5: `loadTodos` never throws: on every cookie string it returns a list.  It
returns the empty list when no `"; "`-separated part of the string starts with
`todos=`, when `decodeURIComponent` throws on the value and when `JSON.parse` throws
on the decoded value; a well-formed jar without a cookie named `todos` gives the
empty list. -/
theorem loadTodos_total (h : Host) (cookie : Str) :
    (∃ ts, loadTodos h cookie = .ok ts) ∧
    ((split cookie "; ".toList).find? (fun c => startsWith c "todos=".toList) = none →
      loadTodos h cookie = .ok []) ∧
    (∀ todoCookie e,
      (split cookie "; ".toList).find? (fun c => startsWith c "todos=".toList) =
        some todoCookie →
      h.decodeURIComponent ((split todoCookie "=".toList).getD 1 "undefined".toList) =
        .error e →
      loadTodos h cookie = .ok []) ∧
    (∀ todoCookie decoded e,
      (split cookie "; ".toList).find? (fun c => startsWith c "todos=".toList) =
        some todoCookie →
      h.decodeURIComponent ((split todoCookie "=".toList).getD 1 "undefined".toList) =
        .ok decoded →
      h.jsonParse decoded = .error e →
      loadTodos h cookie = .ok []) ∧
    (∀ jar : List Cookie, JarOk jar → (∀ c ∈ jar, c.1 ≠ "todos".toList) →
      loadTodos h (documentCookie jar) = .ok []) := by
  refine ⟨?_, ?_, ?_, ?_, ?_⟩
  · rw [loadTodos_eq]
    cases (split cookie "; ".toList).find? (fun c => startsWith c "todos=".toList) with
    | none => exact ⟨[], rfl⟩
    | some todoCookie =>
      simp only []
      cases h.decodeURIComponent
          ((split todoCookie "=".toList).getD 1 "undefined".toList) with
      | error e => exact ⟨[], rfl⟩
      | ok decoded =>
        simp only []
        cases h.jsonParse decoded with
        | error e => exact ⟨[], rfl⟩
        | ok ts => exact ⟨ts, rfl⟩
  · intro hnone
    rw [loadTodos_eq, hnone]
  · intro todoCookie e hsome hdec
    rw [loadTodos_eq, hsome]
    simp only []
    rw [hdec]
  · intro todoCookie decoded e hsome hdec hparse
    rw [loadTodos_eq, hsome]
    simp only []
    rw [hdec]
    simp only []
    rw [hparse]
  · intro jar hjar hno
    rw [loadTodos_eq]
    cases jar with
    | nil => rfl
    | cons c jar =>
      rw [documentCookie_split _ hjar (by simp),
        find_todos_cookie_none _ (jarOk_listed _ hjar)
          (fun x hx => hno x ((mem_listed _ x).mp hx))]

/-- Witness of C5: a `todos` cookie cut off in the middle of an escape, one that
is not JSON, and a jar without a `todos` cookie all load as the empty list. -/
theorem loadTodos_total_witness :
    loadTodos Ref.host "theme=dark; todos=%5B%7".toList = .ok [] ∧
    loadTodos Ref.host "theme=dark; todos=%5Bmilk".toList = .ok [] ∧
    loadTodos Ref.host (documentCookie
      [{ name := "theme".toList, value := "dark".toList, path := "/".toList }]) = .ok [] :=
  ⟨(loadTodos_total Ref.host "theme=dark; todos=%5B%7".toList).2.2.1
      "todos=%5B%7".toList .uriError (by rfl) (by rfl),
    (loadTodos_total Ref.host "theme=dark; todos=%5Bmilk".toList).2.2.2.1
      "todos=%5Bmilk".toList "[milk".toList .syntaxError (by rfl) (by rfl) (by rfl),
    (loadTodos_total Ref.host []).2.2.2.2
      [{ name := "theme".toList, value := "dark".toList, path := "/".toList }]
      (by decide) (by decide)⟩

/-- C7 as stated fails: with 23 of 40 tasks completed the exact percentage is 57.5,
whose rounding is 58, and the rate computed by `updateStats` is 57. -/
theorem updateStats_rate_tie :
    ¬ ((updateStats halfway).rate =
      toNumber (roundHalfUp (100 * halfway.todos.countP (fun t => t.completed))
        halfway.todos.length)) := by
  decide!

/-- C7, amended: the completion rate is the number `0` for the empty list, where
the division is not evaluated.  For a non-empty list shorter than `2^32` it is an
integer within one half of `completed / total × 100`, counted on the stored list: it
is the rounding of that value whenever the value is not half-way between two
integers, and the rounding or one less when it is. -/
theorem updateStats_rate (s : App) :
    (s.todos = [] → (updateStats s).rate = toNumber 0) ∧
    (s.todos ≠ [] → s.todos.length < 2 ^ 32 →
      ∃ r : Nat, (updateStats s).rate = toNumber r ∧
        |(r : ℚ) - (s.todos.countP (fun t => t.completed) : ℚ) / s.todos.length * 100| ≤
          1 / 2 ∧
        ((200 * s.todos.countP (fun t => t.completed) + s.todos.length) %
            (2 * s.todos.length) ≠ 0 →
          r = roundHalfUp (100 * s.todos.countP (fun t => t.completed)) s.todos.length) ∧
        (r = roundHalfUp (100 * s.todos.countP (fun t => t.completed)) s.todos.length ∨
          r + 1 =
            roundHalfUp (100 * s.todos.countP (fun t => t.completed)) s.todos.length)) := by
  refine ⟨fun hnil => ?_, fun hne hlen => ?_⟩
  · simp [updateStats, hnil]
  · have hpos : 0 < s.todos.length := List.length_pos.mpr hne
    have hcount : (s.todos.filter (fun t => t.completed)).length =
        s.todos.countP (fun t => t.completed) := (List.countP_eq_length_filter _ _).symm
    have hct : s.todos.countP (fun t => t.completed) ≤ s.todos.length :=
      List.countP_le_length _
    obtain ⟨⟨h1, h2⟩, _, _⟩ := rate_near _ _ hct hpos hlen
    have hrate : (updateStats s).rate = toNumber (roundInteger (mulUnits (divUnits
        (unitsOf (s.todos.countP (fun t => t.completed))) (unitsOf s.todos.length))
        (unitsOf 100))) := by
      simp only [updateStats, gt_iff_lt, hpos, if_true, hcount]
      exact rate_value _ _ hct hpos hlen
    refine ⟨_, hrate, ?_, nearest_roundHalfUp _ _ _ hpos h1 h2⟩
    generalize roundInteger _ = R at h1 h2 ⊢
    generalize s.todos.countP (fun t => t.completed) = c at h1 h2 ⊢
    generalize s.todos.length = t at hpos h1 h2 ⊢
    have htq : (0 : ℚ) < t := by exact_mod_cast hpos
    have q1 : (200 : ℚ) * c ≤ 2 * t * R + t := by exact_mod_cast h1
    have q2 : (2 : ℚ) * t * R ≤ 200 * c + t := by exact_mod_cast h2
    rw [abs_le]
    constructor
    · have : (c : ℚ) / t * 100 ≤ R + 1 / 2 := by
        rw [div_mul_eq_mul_div, div_le_iff₀ htq]
        linarith
      linarith
    · have : (R : ℚ) - 1 / 2 ≤ c / t * 100 := by
        rw [div_mul_eq_mul_div, le_div_iff₀ htq]
        linarith
      linarith

/-- Witness of C7, amended: with one of three tasks completed the exact percentage
is not half-way between two integers and the rate is its rounding, 33. -/
theorem updateStats_rate_witness : (updateStats third).rate = toNumber 33 :=
  match (updateStats_rate third).2 (by decide) (by decide) with
  | ⟨_, hr, _, hexact, _⟩ =>
    hr.trans (congrArg toNumber ((hexact (by decide)).trans (by decide)))

/-- C11: in a store with pairwise distinct ids that holds a task of the given id,
`toggleComplete` negates the completion flag of that task and changes nothing else;
after toggling B in the store `[B, A]` of two pending tasks, filter `completed`
shows the toggled B alone and filter `pending` shows A alone. -/
theorem toggleComplete_flip (h : Host) (id : Int) (s : App)
    (hnd : (s.todos.map (fun t => t.id)).Nodup) (hpres : ∃ t ∈ s.todos, t.id = id) :
    (toggleComplete h id s).todos =
      s.todos.map (fun t => if t.id = id then { t with completed := !t.completed } else t) ∧
    (toggleComplete h id s).todos.length = s.todos.length ∧
    (∀ (a b : Todo) (s0 : App), s0.todos = [b, a] → s0.searchQuery = [] →
      a.completed = false → b.completed = false →
      getFilteredTodos h (handleFilter "completed".toList (toggleComplete h b.id s0)) =
        [{ b with completed := true }] ∧
      getFilteredTodos h (handleFilter "pending".toList (toggleComplete h b.id s0)) = [a]) := by
  obtain ⟨t, hfind⟩ := find_some_of_present id s.todos hpres
  have htodos : (toggleComplete h id s).todos =
      s.todos.map (fun t => if t.id = id then { t with completed := !t.completed } else t) := by
    simp only [toggleComplete, hfind, saveTodos_todos]
    exact mutateFound_eq_map id _ s.todos hnd
  refine ⟨htodos, ?_, ?_⟩
  · rw [htodos, List.length_map]
  · intro a b s0 hs0 hq ha hb
    have hfind0 : s0.todos.find? (fun t => t.id == b.id) = some b := by
      rw [hs0]; simp
    have htog : (toggleComplete h b.id s0).todos = [{ b with completed := true }, a] := by
      simp only [toggleComplete, hfind0, saveTodos_todos, hs0, mutateFound]
      simp [hb]
    have hq2 : (toggleComplete h b.id s0).searchQuery = [] := by
      simp only [toggleComplete, hfind0, saveTodos_searchQuery, hq]
    constructor
    · rw [getFilteredTodos_noSearch _ _ (by simpa [handleFilter] using hq2)]
      simp only [handleFilter, htog]
      simp [matchesSelector, ha]
    · rw [getFilteredTodos_noSearch _ _ (by simpa [handleFilter] using hq2)]
      simp only [handleFilter, htog]
      simp [matchesSelector, ha]

/-- Witness of C11: completing the milk task of the sample store. -/
theorem toggleComplete_flip_witness :
    (toggleComplete Ref.host 1700000000001 demo).todos =
      [{ milk with completed := true }, dog] :=
  ((toggleComplete_flip Ref.host 1700000000001 demo (by decide) ⟨milk, by decide, rfl⟩).1).trans
    (by decide)

/-- C12: `deleteTodo` with an id that no stored task has leaves the task list as it
was, and deleting the same id twice gives the list that deleting it once gives. -/
theorem deleteTodo_absent (h : Host) (id : Int) (s : App) :
    ((∀ t ∈ s.todos, t.id ≠ id) → (deleteTodo h id s).todos = s.todos) ∧
    (deleteTodo h id (deleteTodo h id s)).todos = (deleteTodo h id s).todos := by
  constructor
  · intro habs
    simp only [deleteTodo, saveTodos_todos]
    rw [List.filter_eq_self]
    intro t ht
    simpa using habs t ht
  · simp only [deleteTodo, saveTodos_todos]
    rw [List.filter_filter]
    exact List.filter_congr (fun t _ => by simp)

/-- Witness of C12: no task of the sample store has the id 7. -/
theorem deleteTodo_absent_witness : (deleteTodo Ref.host 7 demo).todos = demo.todos :=
  (deleteTodo_absent Ref.host 7 demo).1 (by decide)

/-- C13: after `deleteTodo` no stored task has the given id; the list is the
previous list without the tasks of that id, the others unmodified and in their
previous order; when the ids are pairwise distinct and the id is present the
length decreases by exactly one. -/
theorem deleteTodo_removes (h : Host) (id : Int) (s : App) :
    (∀ t ∈ (deleteTodo h id s).todos, t.id ≠ id) ∧
    (deleteTodo h id s).todos = s.todos.filter (fun t => decide (t.id ≠ id)) ∧
    (deleteTodo h id s).todos.Sublist s.todos ∧
    ((s.todos.map (fun t => t.id)).Nodup → (∃ t ∈ s.todos, t.id = id) →
      (deleteTodo h id s).todos.length + 1 = s.todos.length) := by
  refine ⟨?_, ?_, ?_, ?_⟩
  · intro t ht
    simp only [deleteTodo, saveTodos_todos, List.mem_filter] at ht
    simpa using ht.2
  · simp only [deleteTodo, saveTodos_todos]
    exact List.filter_congr (fun t _ => by rw [Bool.eq_iff_iff]; simp)
  · simp only [deleteTodo, saveTodos_todos]
    exact List.filter_sublist _
  · intro hnd hpres
    simp only [deleteTodo, saveTodos_todos]
    exact length_filter_id id s.todos hnd hpres

/-- Witness of C13: deleting the milk task of the sample store leaves one task. -/
theorem deleteTodo_removes_witness :
    (deleteTodo Ref.host 1700000000001 demo).todos.length + 1 = demo.todos.length :=
  (deleteTodo_removes Ref.host 1700000000001 demo).2.2.2 (by decide) ⟨milk, by decide, rfl⟩

/-- C14: `clearCompleted` with the confirmation answered yes leaves the previously
stored tasks with `completed = false`, unmodified and in their previous order, so
that no completed task remains; answered no, it returns the state it was given. -/
theorem clearCompleted_effect (h : Host) (s : App) :
    (clearCompleted h true s).todos = s.todos.filter (fun t => decide (t.completed = false)) ∧
    (∀ t ∈ (clearCompleted h true s).todos, t.completed = false) ∧
    (clearCompleted h true s).todos.Sublist s.todos ∧
    clearCompleted h false s = s := by
  refine ⟨?_, ?_, ?_, rfl⟩
  · simp only [clearCompleted, if_true, saveTodos_todos]
    exact List.filter_congr (fun t _ => by cases t.completed <;> rfl)
  · intro t ht
    simp only [clearCompleted, if_true, saveTodos_todos, List.mem_filter] at ht
    simpa using ht.2
  · simp only [clearCompleted, if_true, saveTodos_todos]
    exact List.filter_sublist _

/-- C15: in a store without blank texts, `handleSubmit` leaves no blank text.  If
the entered text trims to the empty string the state is returned as it was; if not,
every task of the new list is a task of the old list or carries the trimmed input
as its text: in create mode the new task in front, in edit mode the list that
`updateTodo` makes with the trimmed input, the editing target being reset. -/
theorem handleSubmit_text (h : Host) (now : Int) (createdAt input priority category dueDate : Str)
    (s : App) (hinv : ∀ t ∈ s.todos, isBlank t.text = false) :
    (∀ t ∈ (handleSubmit h now createdAt input priority category dueDate s).todos,
      isBlank t.text = false) ∧
    (trim input = [] → handleSubmit h now createdAt input priority category dueDate s = s) ∧
    (trim input ≠ [] →
      (∀ t ∈ (handleSubmit h now createdAt input priority category dueDate s).todos,
        t ∈ s.todos ∨ t.text = trim input) ∧
      (s.editingId = none ∨ s.editingId = some 0 →
        (handleSubmit h now createdAt input priority category dueDate s).todos =
          { id := now, text := trim input, priority := priority, category := category,
            dueDate := dueDate, completed := false, createdAt := createdAt } :: s.todos) ∧
      (∀ id, s.editingId = some id → id ≠ 0 →
        (handleSubmit h now createdAt input priority category dueDate s).todos =
          (updateTodo h id (trim input) priority category dueDate s).todos ∧
        (handleSubmit h now createdAt input priority category dueDate s).editingId = none)) := by
  have hcreate : ∀ t ∈ (addTodo h now createdAt (trim input) priority category dueDate s).todos,
      t ∈ s.todos ∨ t.text = trim input := by
    intro t ht
    rw [addTodo_todos] at ht
    rcases List.mem_cons.mp ht with rfl | ht
    · exact Or.inr rfl
    · exact Or.inl ht
  have hedit : ∀ id, ∀ t ∈ (updateTodo h id (trim input) priority category dueDate s).todos,
      t ∈ s.todos ∨ t.text = trim input := by
    intro id t ht
    unfold updateTodo at ht
    cases hfind : s.todos.find? (fun t => t.id == id) with
    | none => rw [hfind] at ht; exact Or.inl ht
    | some u =>
      rw [hfind] at ht
      simp only [saveTodos_todos] at ht
      rcases mutateFound_mem _ _ _ _ ht with hm | ⟨v, _, rfl⟩
      · exact Or.inl hm
      · exact Or.inr rfl
  have hstored : trim input ≠ [] →
      ∀ t ∈ (handleSubmit h now createdAt input priority category dueDate s).todos,
        t ∈ s.todos ∨ t.text = trim input := by
    intro hne t ht
    unfold handleSubmit at ht
    simp only [hne, ne_eq, not_false_eq_true, if_true] at ht
    cases hed : s.editingId with
    | none => rw [hed] at ht; exact hcreate t ht
    | some id =>
      rw [hed] at ht
      by_cases hid : id = 0
      · simp only [hid, not_true_eq_false, if_false] at ht
        exact hcreate t ht
      · simp only [hid, not_false_eq_true, if_true] at ht
        exact hedit id t ht
  refine ⟨?_, ?_, fun hne => ⟨hstored hne, ?_, ?_⟩⟩
  · intro t ht
    by_cases hne : trim input = []
    · have hsame : handleSubmit h now createdAt input priority category dueDate s = s := by
        simp [handleSubmit, hne]
      rw [hsame] at ht
      exact hinv t ht
    · rcases hstored hne t ht with hm | htext
      · exact hinv t hm
      · rw [htext]
        exact trim_not_blank input hne
  · intro hnil
    simp [handleSubmit, hnil]
  · intro hmode
    unfold handleSubmit
    simp only [hne, ne_eq, not_false_eq_true, if_true]
    rcases hmode with hm | hm
    · rw [hm]; rfl
    · rw [hm]; rfl
  · intro id hed hid
    unfold handleSubmit
    simp [hne, hed, hid]

/-- Witness of C15: submitting `"  Feed cat "` in create mode puts a task with the
text `"Feed cat"` in front of the sample store. -/
theorem handleSubmit_text_witness :
    (handleSubmit Ref.host 1700000000002 "2023-11-14T22:13:20.002Z".toList
        "  Feed cat ".toList "low".toList "home".toList [] demo).todos =
      { id := 1700000000002, text := "Feed cat".toList, priority := "low".toList,
        category := "home".toList, dueDate := [], completed := false,
        createdAt := "2023-11-14T22:13:20.002Z".toList } :: demo.todos :=
  ((((handleSubmit_text Ref.host 1700000000002 "2023-11-14T22:13:20.002Z".toList
    "  Feed cat ".toList "low".toList "home".toList [] demo (by decide)).2.2
      (by decide)).2.1) (Or.inl rfl)).trans (by decide)

/-- C16 as stated fails.  Adding an eighteenth task to the store `seventeen`, whose
cookie holds its seventeen tasks, makes a list that the built-ins round-trip but
whose cookie is too long: the assignment is ignored and the cookie still reads back
as the seventeen tasks.  On the page of `shadowed`, completing a task leaves the
cookie string reading back as the empty list of the path `/app`. -/
theorem persisted_after_mutation_stale :
    Ref.host.RoundTrips
      (addTodo Ref.host 1700000000001 "2023-11-14T22:13:20.001Z".toList "Buy milk".toList
        "medium".toList "errand".toList [] seventeen).todos ∧
    loadTodos Ref.host (documentCookie
      (addTodo Ref.host 1700000000001 "2023-11-14T22:13:20.001Z".toList "Buy milk".toList
        "medium".toList "errand".toList [] seventeen).jar) = .ok seventeen.todos ∧
    seventeen.todos ≠
      (addTodo Ref.host 1700000000001 "2023-11-14T22:13:20.001Z".toList "Buy milk".toList
        "medium".toList "errand".toList [] seventeen).todos ∧
    loadTodos Ref.host (documentCookie (toggleComplete Ref.host 1700000000001 shadowed).jar) ≠
      .ok (toggleComplete Ref.host 1700000000001 shadowed).todos := by
  refine ⟨⟨?_, ?_, ?_⟩, ?_, ?_, ?_⟩ <;> decide!

/-- C16, amended: after each mutation that takes effect the cookie holds the
serialization of the whole current list, provided the jar holds no `todos` cookie of
a path other than `/` and the new list fits a cookie: when the host's built-ins
round-trip the new list and its encoding stays within 4096 octets, `loadTodos`
applied to the new cookie string returns the list in memory.  This holds after
`addTodo`, after `updateTodo` and `toggleComplete` on a present id, after
`deleteTodo` and after a confirmed `clearCompleted`. -/
theorem persisted_after_mutation (h : Host) (s : App) (hjar : JarOk s.jar)
    (hroot : RootOnly s.jar) :
    (∀ (now : Int) (createdAt text priority category dueDate : Str),
      h.RoundTrips (addTodo h now createdAt text priority category dueDate s).todos →
      h.Fits (addTodo h now createdAt text priority category dueDate s).todos →
      loadTodos h (documentCookie
          (addTodo h now createdAt text priority category dueDate s).jar) =
        .ok (addTodo h now createdAt text priority category dueDate s).todos) ∧
    (∀ (id : Int) (text priority category dueDate : Str), (∃ t ∈ s.todos, t.id = id) →
      h.RoundTrips (updateTodo h id text priority category dueDate s).todos →
      h.Fits (updateTodo h id text priority category dueDate s).todos →
      loadTodos h (documentCookie (updateTodo h id text priority category dueDate s).jar) =
        .ok (updateTodo h id text priority category dueDate s).todos) ∧
    (∀ id : Int, (∃ t ∈ s.todos, t.id = id) →
      h.RoundTrips (toggleComplete h id s).todos →
      h.Fits (toggleComplete h id s).todos →
      loadTodos h (documentCookie (toggleComplete h id s).jar) =
        .ok (toggleComplete h id s).todos) ∧
    (∀ id : Int, h.RoundTrips (deleteTodo h id s).todos →
      h.Fits (deleteTodo h id s).todos →
      loadTodos h (documentCookie (deleteTodo h id s).jar) = .ok (deleteTodo h id s).todos) ∧
    (h.RoundTrips (clearCompleted h true s).todos →
      h.Fits (clearCompleted h true s).todos →
      loadTodos h (documentCookie (clearCompleted h true s).jar) =
        .ok (clearCompleted h true s).todos) := by
  refine ⟨?_, ?_, ?_, ?_, ?_⟩
  · intro now createdAt text priority category dueDate hrt hfit
    exact loadTodos_after_assignment h s.jar _ hjar hroot hrt hfit
  · intro id text priority category dueDate hpres hrt hfit
    obtain ⟨t, hfind⟩ := find_some_of_present id s.todos hpres
    have hsaved : (updateTodo h id text priority category dueDate s).jar =
        setDocumentCookie ("todos=".toList ++ h.encodeURIComponent (h.jsonStringify
          (updateTodo h id text priority category dueDate s).todos) ++
          "; max-age=31536000; path=/".toList) s.jar := by
      unfold updateTodo
      rw [hfind]
      try rfl
    rw [hsaved]
    exact loadTodos_after_assignment h s.jar _ hjar hroot hrt hfit
  · intro id hpres hrt hfit
    obtain ⟨t, hfind⟩ := find_some_of_present id s.todos hpres
    have hsaved : (toggleComplete h id s).jar =
        setDocumentCookie ("todos=".toList ++ h.encodeURIComponent (h.jsonStringify
          (toggleComplete h id s).todos) ++ "; max-age=31536000; path=/".toList) s.jar := by
      unfold toggleComplete
      rw [hfind]
      try rfl
    rw [hsaved]
    exact loadTodos_after_assignment h s.jar _ hjar hroot hrt hfit
  · intro id hrt hfit
    exact loadTodos_after_assignment h s.jar _ hjar hroot hrt hfit
  · intro hrt hfit
    exact loadTodos_after_assignment h s.jar _ hjar hroot hrt hfit

set_option maxRecDepth 100000 in
/-- Witness of C16, amended: after completing the milk task of the sample store the
cookie string reads back as the new list. -/
theorem persisted_after_mutation_witness :
    loadTodos Ref.host (documentCookie (toggleComplete Ref.host 1700000000001 demo).jar) =
      .ok (toggleComplete Ref.host 1700000000001 demo).todos :=
  (persisted_after_mutation Ref.host demo (by decide) (by decide)).2.2.1 1700000000001
    ⟨milk, by decide, rfl⟩ ⟨by decide!, by decide!, by decide!⟩ (by decide!)

/-- C17 fails west of UTC.  At noon of 2024-05-10 local time in a zone five hours
behind UTC, a task due `2024-05-10` is not shown as `Today` but with the date of the
day before, and a task due `2024-05-11` is shown as `Today`. -/
theorem formatDate_west_of_utc :
    localDay 1715360400000 (-300) = daysFromCivil 2024 5 10 ∧
    formatDate 1715360400000 (-300) "2024-05-10".toList =
      .localeDate (daysFromCivil 2024 5 9) ∧
    formatDate 1715360400000 (-300) "2024-05-11".toList = .today := by
  decide

/-- East of UTC (offsets from 0 up to a day) the comparison of `formatDate` is the
comparison of calendar days: a date-only string that parses to the day `day` is
shown as `Today` when `day` is the local day of `now` and as `Tomorrow` when it is
the next one. -/
theorem formatDate_east_of_utc (now offset day : Int) (dateString : Str)
    (hoff : 0 ≤ offset ∧ offset < 1440)
    (hparse : dateParse dateString = some (day * msPerDay)) :
    (day = localDay now offset → formatDate now offset dateString = .today) ∧
    (day = localDay now offset + 1 → formatDate now offset dateString = .tomorrow) := by
  have hday : localDay (day * msPerDay) offset = day := by
    unfold localDay msPerDay
    omega
  have hnext : localDay (now + msPerDay) offset = localDay now offset + 1 := by
    unfold localDay msPerDay
    omega
  constructor
  · intro hd
    simp only [formatDate, hparse]
    rw [hday, if_pos hd]
  · intro hd
    have hne : ¬ (day = localDay now offset) := by omega
    simp only [formatDate, hparse]
    rw [hday, hnext, if_neg hne, if_pos hd]

/-- A task without due date is shown with the text for no due date. -/
theorem dueText_absent (now offset : Int) (t : Todo) (hdue : t.dueDate = []) :
    dueText now offset t = .noDueDate := by
  simp [dueText, hdue]

/-- C18: the view is one pass that keeps the tasks satisfying both the search
predicate and the selector predicate, and filtering by selector first and by search
second gives the same list as the code's order. -/
theorem getFilteredTodos_single_pass (h : Host) (s : App) :
    getFilteredTodos h s =
      s.todos.filter (fun t =>
        matchesSearch h s.searchQuery t && matchesSelector s.currentFilter t) ∧
    getFilteredTodos h s =
      (s.todos.filter (matchesSelector s.currentFilter)).filter
        (matchesSearch h s.searchQuery) := by
  constructor
  · rw [getFilteredTodos_eq, List.filter_filter]
    exact List.filter_congr (fun t _ => Bool.and_comm _ _)
  · rw [getFilteredTodos_eq, List.filter_filter, List.filter_filter]
    exact List.filter_congr (fun t _ => Bool.and_comm _ _)

/-- C19: pairwise distinct ids stay pairwise distinct under `updateTodo`,
`toggleComplete`, `deleteTodo` and `clearCompleted`; the first two leave the list of
ids as it was, the last two only remove tasks and leave the others as they were. -/
theorem ids_nodup_preserved (h : Host) (s : App)
    (hnd : (s.todos.map (fun t => t.id)).Nodup) :
    (∀ (id : Int) (text priority category dueDate : Str),
      (updateTodo h id text priority category dueDate s).todos.map (fun t => t.id) =
        s.todos.map (fun t => t.id) ∧
      ((updateTodo h id text priority category dueDate s).todos.map (fun t => t.id)).Nodup) ∧
    (∀ id : Int,
      (toggleComplete h id s).todos.map (fun t => t.id) = s.todos.map (fun t => t.id) ∧
      ((toggleComplete h id s).todos.map (fun t => t.id)).Nodup) ∧
    (∀ id : Int, (deleteTodo h id s).todos.Sublist s.todos ∧
      ((deleteTodo h id s).todos.map (fun t => t.id)).Nodup) ∧
    (∀ confirmed : Bool, (clearCompleted h confirmed s).todos.Sublist s.todos ∧
      ((clearCompleted h confirmed s).todos.map (fun t => t.id)).Nodup) := by
  refine ⟨?_, ?_, ?_, ?_⟩
  · intro id text priority category dueDate
    have hids : (updateTodo h id text priority category dueDate s).todos.map (fun t => t.id) =
        s.todos.map (fun t => t.id) := by
      unfold updateTodo
      cases s.todos.find? (fun t => t.id == id) with
      | none => rfl
      | some t =>
        simp only [saveTodos_todos]
        exact mutateFound_ids _ _ _ (fun _ => rfl)
    exact ⟨hids, hids ▸ hnd⟩
  · intro id
    have hids : (toggleComplete h id s).todos.map (fun t => t.id) =
        s.todos.map (fun t => t.id) := by
      unfold toggleComplete
      cases s.todos.find? (fun t => t.id == id) with
      | none => rfl
      | some t =>
        simp only [saveTodos_todos]
        exact mutateFound_ids _ _ _ (fun _ => rfl)
    exact ⟨hids, hids ▸ hnd⟩
  · intro id
    have hsub : (deleteTodo h id s).todos.Sublist s.todos := by
      simp only [deleteTodo, saveTodos_todos]
      exact List.filter_sublist _
    exact ⟨hsub, hnd.sublist (hsub.map _)⟩
  · intro confirmed
    have hsub : (clearCompleted h confirmed s).todos.Sublist s.todos := by
      cases confirmed
      · exact List.Sublist.refl _
      · simp only [clearCompleted, if_true, saveTodos_todos]
        exact List.filter_sublist _
    exact ⟨hsub, hnd.sublist (hsub.map _)⟩

/-- Witness of C19: the ids of the sample store stay distinct when the milk task is
completed. -/
theorem ids_nodup_preserved_witness :
    ((toggleComplete Ref.host 1700000000001 demo).todos.map (fun t => t.id)).Nodup :=
  ((ids_nodup_preserved Ref.host demo (by decide)).2.1 1700000000001).2

/-- C20: two calls of `toggleComplete` with the same id in a row restore the task
list, for every list (ids may repeat) and every id. -/
theorem toggleComplete_twice (h : Host) (id : Int) (s : App) :
    (toggleComplete h id (toggleComplete h id s)).todos = s.todos := by
  cases hfind : s.todos.find? (fun t => t.id == id) with
  | none =>
    have hsame : toggleComplete h id s = s := by simp only [toggleComplete, hfind]
    rw [hsame, hsame]
  | some t =>
    have key : ∀ (s1 : App) (u : Todo), s1.todos.find? (fun t => t.id == id) = some u →
        (toggleComplete h id s1).todos =
          mutateFound (fun t => t.id == id)
            (fun todo => { todo with completed := !todo.completed }) s1.todos := by
      intro s1 u hu
      unfold toggleComplete
      rw [hu]
      try rfl
    have hfirst := key s t hfind
    obtain ⟨u, hfind2⟩ := find_mutateFound id
      (fun todo => { todo with completed := !todo.completed }) s.todos (fun _ => rfl) t hfind
    rw [← hfirst] at hfind2
    rw [key (toggleComplete h id s) u hfind2, hfirst]
    exact mutateFound_flip_twice id s.todos

end TodoApp
